import Mathlib

/-!
Shallow embedding of the IAED-2025 vaccination-registry program
(`project.c`, `command_c.c`, `command_a.c`, `command_r.c`, `command_d.c`,
`command_l.c`, `command_u.c`, `data_structures.c`, `utils.c`).

The C program keeps one owning store of vaccine lots (the hash table by
batch id), a per-name index of lot pointers, a global linked list of lots,
a per-user array of inoculation pointers and a global linked list of
inoculations.  In the embedding the lot store is an association list from
batch id to lot data; the name index and the global list hold batch ids and
are dereferenced through the store, which models the C sharing of one
mutable lot object between all indices.  C strings are Lean `String`s;
`strcmp` is modelled byte-wise on the character lists; C `int`s are `Int`.
-/

/-- `Date` mirrors the C `Date` struct: three `int` fields. -/
structure Date where
  day : Int
  month : Int
  year : Int
deriving DecidableEq, Repr

instance : Inhabited Date := ⟨⟨1, 1, 1⟩⟩

/-- Lot data from `struct VaccineLot` (without the intrusive list pointers,
which are modelled by the containing structures). -/
structure VaccineLot where
  lot : String
  name : String
  validation : Date
  doses : Int
  dosesUsed : Int
  isRemoved : Bool
deriving DecidableEq, Repr

instance : Inhabited VaccineLot := ⟨⟨"", "", default, 0, 0, false⟩⟩

/-- Inoculation record from `struct Inoculation`. -/
structure Inoculation where
  user : String
  lot : String
  date : Date
deriving DecidableEq, Repr

instance : Inhabited Inoculation := ⟨⟨"", "", default⟩⟩

/-- `compareDates` from `data_structures.c`: lexicographic year, month, day
by `int` subtraction. -/
def compareDates (a b : Date) : Int :=
  if a.year ≠ b.year then a.year - b.year
  else if a.month ≠ b.month then a.month - b.month
  else a.day - b.day

/-- Byte-wise `strcmp`, modelled on character lists with result sign
normalised to -1/0/1 (only the sign of `strcmp` is used by the program). -/
def strcmpL : List Char → List Char → Int
  | [], [] => 0
  | [], _ :: _ => -1
  | _ :: _, [] => 1
  | a :: as, b :: bs => if a < b then -1 else if b < a then 1 else strcmpL as bs

/-- `strcmp` on strings. -/
def strcmpS (a b : String) : Int := strcmpL a.data b.data

/-- `compareVaccines` from `command_l.c`: validation year, month, day, then
`strcmp` of the lot ids. -/
def compareVaccines (a b : VaccineLot) : Int :=
  if a.validation.year ≠ b.validation.year then a.validation.year - b.validation.year
  else if a.validation.month ≠ b.validation.month then a.validation.month - b.validation.month
  else if a.validation.day ≠ b.validation.day then a.validation.day - b.validation.day
  else strcmpS a.lot b.lot

section OrderLemmas

theorem strcmpL_self (a : List Char) : strcmpL a a = 0 := by
  induction a with
  | nil => rfl
  | cons c cs ih => simp [strcmpL, ih]

theorem strcmpL_antisymm (a b : List Char) : strcmpL a b = -(strcmpL b a) := by
  induction a generalizing b with
  | nil => cases b <;> simp [strcmpL]
  | cons c cs ih =>
    cases b with
    | nil => simp [strcmpL]
    | cons d ds =>
      by_cases h1 : c < d
      · simp [strcmpL, h1, asymm h1]
      · by_cases h2 : d < c
        · simp [strcmpL, h1, h2]
        · simp [strcmpL, h1, h2, ih]

theorem strcmpL_eq_zero_iff (a b : List Char) : strcmpL a b = 0 ↔ a = b := by
  induction a generalizing b with
  | nil => cases b <;> simp [strcmpL]
  | cons c cs ih =>
    cases b with
    | nil => simp [strcmpL]
    | cons d ds =>
      by_cases h1 : c < d
      · simp [strcmpL, h1]
        intro h; exact absurd h1 (by simp [h])
      · by_cases h2 : d < c
        · simp [strcmpL, h1, h2]
          intro h; exact absurd h2 (by simp [h])
        · have : c = d := le_antisymm (not_lt.mp h2) (not_lt.mp h1)
          simp [strcmpL, h1, h2, ih, this]

theorem strcmpL_trans_le {a b c : List Char}
    (h1 : strcmpL a b ≤ 0) (h2 : strcmpL b c ≤ 0) : strcmpL a c ≤ 0 := by
  induction a generalizing b c with
  | nil => cases c <;> simp [strcmpL]
  | cons x xs ih =>
    cases b with
    | nil => simp [strcmpL] at h1
    | cons y ys =>
      cases c with
      | nil => simp [strcmpL] at h2
      | cons z zs =>
        simp only [strcmpL] at h1 h2 ⊢
        by_cases hxy : x < y
        · have hyz : ¬ z < y := by
            intro hzy
            by_cases hzy2 : y < z
            · exact absurd hzy (asymm hzy2)
            · simp [strcmpL, hzy2, hzy] at h2
          have hxz : x < z := lt_of_lt_of_le hxy (not_lt.mp hyz)
          simp [hxz]
        · by_cases hyx : y < x
          · simp [strcmpL, hxy, hyx] at h1
          · have hxy' : x = y := le_antisymm (not_lt.mp hyx) (not_lt.mp hxy)
            subst hxy'
            by_cases hyz : x < z
            · simp [hyz]
            · by_cases hzy : z < x
              · simp [strcmpL, hyz, hzy] at h2
              · simp [strcmpL, hxy, hyx] at h1
                simp [strcmpL, hyz, hzy] at h2 ⊢
                exact ih h1 h2

theorem compareDates_self (a : Date) : compareDates a a = 0 := by
  simp [compareDates]

theorem compareDates_antisymm (a b : Date) : compareDates a b = -(compareDates b a) := by
  unfold compareDates
  split_ifs <;> omega

theorem compareDates_eq_zero_iff (a b : Date) : compareDates a b = 0 ↔ a = b := by
  unfold compareDates
  constructor
  · intro h
    split_ifs at h <;> (cases a; cases b; simp_all; omega)
  · intro h; subst h; simp

theorem compareDates_trans_le {a b c : Date}
    (h1 : compareDates a b ≤ 0) (h2 : compareDates b c ≤ 0) : compareDates a c ≤ 0 := by
  unfold compareDates at h1 h2 ⊢
  split_ifs at h1 h2 ⊢ <;> omega

/-- `compareVaccines` factored through `compareDates`. -/
theorem compareVaccines_eq (a b : VaccineLot) :
    compareVaccines a b =
      if compareDates a.validation b.validation ≠ 0 then compareDates a.validation b.validation
      else strcmpS a.lot b.lot := by
  unfold compareVaccines compareDates
  split_ifs <;> omega

theorem compareVaccines_self (a : VaccineLot) : compareVaccines a a = 0 := by
  rw [compareVaccines_eq]
  simp [compareDates_self, strcmpS, strcmpL_self]

theorem compareVaccines_antisymm (a b : VaccineLot) :
    compareVaccines a b = -(compareVaccines b a) := by
  rw [compareVaccines_eq, compareVaccines_eq]
  have hd := compareDates_antisymm a.validation b.validation
  have hs := strcmpL_antisymm a.lot.data b.lot.data
  unfold strcmpS
  split_ifs <;> omega

theorem compareVaccines_eq_zero (a b : VaccineLot) (h : compareVaccines a b = 0) :
    a.validation = b.validation ∧ a.lot = b.lot := by
  rw [compareVaccines_eq] at h
  split_ifs at h with hd
  · exact absurd h hd
  · push_neg at hd
    refine ⟨(compareDates_eq_zero_iff _ _).mp hd, ?_⟩
    have := (strcmpL_eq_zero_iff a.lot.data b.lot.data).mp h
    exact String.ext this

theorem compareVaccines_trans_le {a b c : VaccineLot}
    (h1 : compareVaccines a b ≤ 0) (h2 : compareVaccines b c ≤ 0) :
    compareVaccines a c ≤ 0 := by
  rw [compareVaccines_eq] at h1 h2 ⊢
  have had := compareDates_antisymm a.validation b.validation
  have hbd := compareDates_antisymm b.validation c.validation
  by_cases d1 : compareDates a.validation b.validation = 0
  · have heq : a.validation = b.validation := (compareDates_eq_zero_iff _ _).mp d1
    by_cases d2 : compareDates b.validation c.validation = 0
    · have heq2 : b.validation = c.validation := (compareDates_eq_zero_iff _ _).mp d2
      simp [d1, d2, heq, heq2, compareDates_self] at h1 h2 ⊢
      exact strcmpL_trans_le h1 h2
    · simp [d1, d2, heq] at h1 h2 ⊢
      simp [d2, h2]
  · by_cases d2 : compareDates b.validation c.validation = 0
    · have heq2 : b.validation = c.validation := (compareDates_eq_zero_iff _ _).mp d2
      rw [← heq2]
      simp [d1] at h1 ⊢
      exact h1
    · simp [d1, d2] at h1 h2
      have h3 : compareDates a.validation c.validation ≤ 0 :=
        compareDates_trans_le (le_of_lt (lt_of_le_of_ne h1 d1))
          (le_of_lt (lt_of_le_of_ne h2 d2))
      by_cases d3 : compareDates a.validation c.validation = 0
      · have : a.validation = c.validation := (compareDates_eq_zero_iff _ _).mp d3
        rw [this] at h1
        have hac := compareDates_antisymm c.validation b.validation
        omega
      · simp [d3, h3]

theorem compareVaccines_total (a b : VaccineLot) :
    compareVaccines a b ≤ 0 ∨ compareVaccines b a ≤ 0 := by
  have := compareVaccines_antisymm a b
  omega

end OrderLemmas

/-- `isLotValidAndAvailable` from `command_a.c`: not removed, doses left,
validation date not before the clock date. -/
def isLotValidAndAvailable (lot : VaccineLot) (currentDate : Date) : Bool :=
  !lot.isRemoved && decide (lot.dosesUsed < lot.doses)
    && decide (compareDates lot.validation currentDate ≥ 0)

/-- The accumulator loop of `findOldestValidLotFromList` in `command_a.c`:
scan the group's lots in order, keeping the first comparator-least eligible
lot seen so far (a candidate replaces the current one only when strictly
smaller under `compareVaccines`). -/
def findOldestGo (currentDate : Date) : List VaccineLot → Option VaccineLot → Option VaccineLot
  | [], acc => acc
  | lot :: rest, acc =>
    if isLotValidAndAvailable lot currentDate then
      match acc with
      | none => findOldestGo currentDate rest (some lot)
      | some best =>
        if compareVaccines lot best < 0 then findOldestGo currentDate rest (some lot)
        else findOldestGo currentDate rest (some best)
    else findOldestGo currentDate rest acc

/-- `findOldestValidLotFromList` from `command_a.c`. -/
def findOldestValidLotFromList (lots : List VaccineLot) (currentDate : Date) :
    Option VaccineLot :=
  findOldestGo currentDate lots none

/-- Invariant lemma for the scan loop: the result is eligible, comes from the
list or the accumulator, and is `compareVaccines`-no-greater than every
eligible lot of the list and than the accumulator. -/
theorem findOldestGo_spec (d : Date) (lots : List VaccineLot) :
    ∀ acc : Option VaccineLot, (∀ b, acc = some b → isLotValidAndAvailable b d = true) →
    match findOldestGo d lots acc with
    | none => acc = none ∧ ∀ x ∈ lots, isLotValidAndAvailable x d = false
    | some r =>
        isLotValidAndAvailable r d = true ∧ (r ∈ lots ∨ acc = some r) ∧
        (∀ x ∈ lots, isLotValidAndAvailable x d = true → compareVaccines r x ≤ 0) ∧
        (∀ b, acc = some b → compareVaccines r b ≤ 0) := by
  induction lots with
  | nil =>
    intro acc hacc
    cases acc with
    | none => simp [findOldestGo]
    | some b =>
      simp only [findOldestGo]
      refine ⟨hacc b rfl, by simp, by simp, ?_⟩
      intro b' hb'
      cases hb'
      rw [compareVaccines_self]
  | cons lot rest ih =>
    intro acc hacc
    by_cases he : isLotValidAndAvailable lot d
    · cases acc with
      | none =>
        simp only [findOldestGo, he, if_pos]
        have := ih (some lot) (fun b hb => by cases hb; exact he)
        cases hgo : findOldestGo d rest (some lot) with
        | none => rw [hgo] at this; exact absurd this.1 (by simp)
        | some r =>
          rw [hgo] at this
          obtain ⟨h1, h2, h3, h4⟩ := this
          refine ⟨h1, ?_, ?_, by simp⟩
          · rcases h2 with h | h
            · exact Or.inl (List.mem_cons_of_mem _ h)
            · exact Or.inl (by rw [← Option.some.inj h]; exact List.mem_cons_self _ _)
          · intro x hx hex
            rcases List.mem_cons.mp hx with rfl | hx'
            · exact h4 _ rfl
            · exact h3 x hx' hex
      | some best =>
        by_cases hc : compareVaccines lot best < 0
        · simp only [findOldestGo, he, if_pos, hc, if_true]
          have := ih (some lot) (fun b hb => by cases hb; exact he)
          cases hgo : findOldestGo d rest (some lot) with
          | none => rw [hgo] at this; exact absurd this.1 (by simp)
          | some r =>
            rw [hgo] at this
            obtain ⟨h1, h2, h3, h4⟩ := this
            have hrlot : compareVaccines r lot ≤ 0 := h4 lot rfl
            refine ⟨h1, ?_, ?_, ?_⟩
            · rcases h2 with h | h
              · exact Or.inl (List.mem_cons_of_mem _ h)
              · cases h; exact Or.inl (List.mem_cons_self _ _)
            · intro x hx hex
              rcases List.mem_cons.mp hx with rfl | hx'
              · exact hrlot
              · exact h3 x hx' hex
            · intro b hb; cases hb
              exact compareVaccines_trans_le hrlot (le_of_lt hc)
        · simp only [findOldestGo, he, if_pos, hc, if_false]
          have := ih (some best) hacc
          cases hgo : findOldestGo d rest (some best) with
          | none => rw [hgo] at this; exact absurd this.1 (by simp)
          | some r =>
            rw [hgo] at this
            obtain ⟨h1, h2, h3, h4⟩ := this
            have hrbest : compareVaccines r best ≤ 0 := h4 best rfl
            have hbestlot : compareVaccines best lot ≤ 0 := by
              have := compareVaccines_antisymm lot best
              omega
            refine ⟨h1, ?_, ?_, h4⟩
            · rcases h2 with h | h
              · exact Or.inl (List.mem_cons_of_mem _ h)
              · exact Or.inr h
            · intro x hx hex
              rcases List.mem_cons.mp hx with rfl | hx'
              · exact compareVaccines_trans_le hrbest hbestlot
              · exact h3 x hx' hex
    · simp only [findOldestGo, he, if_neg, Bool.false_eq_true, if_false]
      have := ih acc hacc
      cases hgo : findOldestGo d rest acc with
      | none =>
        rw [hgo] at this
        refine ⟨this.1, fun x hx => ?_⟩
        rcases List.mem_cons.mp hx with rfl | hx'
        · simpa using he
        · exact this.2 x hx'
      | some r =>
        rw [hgo] at this
        obtain ⟨h1, h2, h3, h4⟩ := this
        refine ⟨h1, ?_, ?_, h4⟩
        · rcases h2 with h | h
          · exact Or.inl (List.mem_cons_of_mem _ h)
          · exact Or.inr h
        · intro x hx hex
          rcases List.mem_cons.mp hx with rfl | hx'
          · simp [hex] at he
          · exact h3 x hx' hex

/-- Specification of `findOldestValidLotFromList`: when some lot is returned
it is an eligible member of the list and no eligible lot compares strictly
below it; when `none` is returned no lot of the list is eligible. -/
theorem findOldestValidLotFromList_spec (lots : List VaccineLot) (d : Date) :
    match findOldestValidLotFromList lots d with
    | none => ∀ x ∈ lots, isLotValidAndAvailable x d = false
    | some r =>
        isLotValidAndAvailable r d = true ∧ r ∈ lots ∧
        (∀ x ∈ lots, isLotValidAndAvailable x d = true → compareVaccines r x ≤ 0) := by
  have := findOldestGo_spec d lots none (by simp)
  unfold findOldestValidLotFromList
  cases hgo : findOldestGo d lots none with
  | none => rw [hgo] at this; exact this.2
  | some r =>
    rw [hgo] at this
    obtain ⟨h1, h2, h3, _⟩ := this
    refine ⟨h1, ?_, h3⟩
    rcases h2 with h | h
    · exact h
    · exact absurd h (by simp)

/-- A selected lot is never a removed (frozen) one. -/
theorem findOldestValidLotFromList_not_removed (lots : List VaccineLot) (d : Date)
    (r : VaccineLot) (h : findOldestValidLotFromList lots d = some r) :
    r.isRemoved = false := by
  have := findOldestValidLotFromList_spec lots d
  rw [h] at this
  have h1 := this.1
  unfold isLotValidAndAvailable at h1
  simp at h1
  exact h1.1.1

/-- `compareVaccines a b < 0` means: earlier validation date, or same date
and lexicographically (`strcmp`) smaller lot id. -/
theorem compareVaccines_lt_iff (a b : VaccineLot) :
    compareVaccines a b < 0 ↔
      (compareDates a.validation b.validation < 0 ∨
       (a.validation = b.validation ∧ strcmpS a.lot b.lot < 0)) := by
  rw [compareVaccines_eq]
  rw [← compareDates_eq_zero_iff a.validation b.validation]
  split_ifs with h
  · constructor
    · intro h2; exact Or.inl h2
    · rintro (h2 | ⟨h2, _⟩)
      · exact h2
      · omega
  · push_neg at h
    constructor
    · intro h2; exact Or.inr ⟨h, h2⟩
    · rintro (h2 | ⟨_, h2⟩)
      · omega
      · exact h2

/-- `compareVaccines a b ≤ 0` means: earlier validation date, or same date
and `strcmp`-no-greater lot id. -/
theorem compareVaccines_le_iff (a b : VaccineLot) :
    compareVaccines a b ≤ 0 ↔
      (compareDates a.validation b.validation < 0 ∨
       (a.validation = b.validation ∧ strcmpS a.lot b.lot ≤ 0)) := by
  rw [compareVaccines_eq]
  rw [← compareDates_eq_zero_iff a.validation b.validation]
  split_ifs with h
  · constructor
    · intro h2; exact Or.inl (lt_of_le_of_ne h2 h)
    · rintro (h2 | ⟨h2, _⟩)
      · omega
      · omega
  · push_neg at h
    constructor
    · intro h2; exact Or.inr ⟨h, h2⟩
    · rintro (h2 | ⟨_, h2⟩)
      · omega
      · exact h2

/-- Association-list lookup; models a chained hash-table search
(`findVaccineByBatch`, `findVaccineByName`, `findUserByName`): the first
entry with the given key wins. -/
def assocFind {α : Type} : List (String × α) → String → Option α
  | [], _ => none
  | (k, v) :: rest, key => if k = key then some v else assocFind rest key

/-- Replace the value stored under the first occurrence of a key; models a
write through the pointer returned by a hash-table lookup. -/
def assocUpdate {α : Type} : List (String × α) → String → α → List (String × α)
  | [], _, _ => []
  | (k, v) :: rest, key, nv =>
    if k = key then (k, nv) :: rest else (k, v) :: assocUpdate rest key nv

/-- Remove the first entry with the given key; models `removeVaccineFromHash`
(which unlinks the first matching node of the bucket chain). -/
def assocRemove {α : Type} : List (String × α) → String → List (String × α)
  | [], _ => []
  | (k, v) :: rest, key =>
    if k = key then rest else (k, v) :: assocRemove rest key

/-- The whole registry state: the owning lot store keyed by batch id, the
per-name index and the global lot list (both holding batch ids, dereferenced
through the store), the registered-lot counter, the per-user inoculation
arrays and the global inoculation list (newest first). -/
structure Registry where
  lotMap : List (String × VaccineLot)
  groups : List (String × List String)
  batchList : List String
  vaccineCount : Int
  users : List (String × List Inoculation)
  inocList : List Inoculation
deriving DecidableEq, Repr

/-- The empty registry built by `initializeDataStructures`. -/
def emptyRegistry : Registry := ⟨[], [], [], 0, [], []⟩

/-- `findVaccineByBatch` from `data_structures.c`. -/
def findVaccineByBatch (st : Registry) (batch : String) : Option VaccineLot :=
  assocFind st.lotMap batch

/-- The lots of one name group, dereferenced through the owning store
(the C group stores pointers into the same lot objects). -/
def derefLots (st : Registry) (ids : List String) : List VaccineLot :=
  ids.filterMap (assocFind st.lotMap)

/-- The lots of the name group of `vaccineName` (empty when absent). -/
def groupLots (st : Registry) (vaccineName : String) : List VaccineLot :=
  derefLots st ((assocFind st.groups vaccineName).getD [])

/-- `findOldestValidLot` from `command_a.c`: `NULL` when the name group is
absent or empty, otherwise the scan over the group's lots. -/
def findOldestValidLot (st : Registry) (vaccineName : String) (d : Date) :
    Option VaccineLot :=
  match assocFind st.groups vaccineName with
  | none => none
  | some ids =>
    if ids.length = 0 then none
    else findOldestValidLotFromList (derefLots st ids) d

/-- Output messages (both languages, selected by the `portuguese` flag as in
the C handlers). -/
def msgAlreadyVaccinated (pt : Bool) : String :=
  if pt then "já vacinado" else "already vaccinated"

def msgNoStock (pt : Bool) : String := if pt then "esgotado" else "no stock"

def msgNoMemory (pt : Bool) : String := if pt then "sem memória" else "No memory"

def msgInvalidDate (pt : Bool) : String := if pt then "data inválida" else "invalid date"

def msgNoSuchUser (pt : Bool) (u : String) : String :=
  u ++ ": " ++ (if pt then "utente inexistente" else "no such user")

def msgNoSuchBatch (pt : Bool) (b : String) : String :=
  b ++ ": " ++ (if pt then "lote inexistente" else "no such batch")

def msgNoSuchVaccine (pt : Bool) (v : String) : String :=
  v ++ ": " ++ (if pt then "vacina inexistente" else "no such vaccine")

def msgMissingBatch (pt : Bool) : String := if pt then "lote em falta" else "missing batch"

def msgTooManyVaccines (pt : Bool) : String :=
  if pt then "demasiadas vacinas" else "too many vaccines"

def msgDuplicateBatch (pt : Bool) : String :=
  if pt then "número de lote duplicado" else "duplicate batch number"

def msgInvalidBatch (pt : Bool) : String := if pt then "lote inválido" else "invalid batch"

def msgInvalidName (pt : Bool) : String := if pt then "nome inválido" else "invalid name"

def msgInvalidQuantity (pt : Bool) : String :=
  if pt then "quantidade inválida" else "invalid quantity"

/-- `inoculationMatches` from `command_a.c`: the record is dated exactly the
clock date and its lot id equals the id of some lot of the vaccine's name
group (the duplicate-per-day guard is keyed on the vaccine name through the
group, not on one batch id). -/
def inoculationMatches (inoc : Inoculation) (currentDate : Date)
    (groupIds : List String) : Bool :=
  decide (inoc.date.day = currentDate.day) &&
  decide (inoc.date.month = currentDate.month) &&
  decide (inoc.date.year = currentDate.year) &&
  groupIds.any (fun id => decide (id = inoc.lot))

/-- `isAlreadyVaccinated` from `command_a.c`. -/
def isAlreadyVaccinated (st : Registry) (userName vaccineName : String)
    (currentDate : Date) : Bool :=
  match assocFind st.users userName with
  | none => false
  | some inocs =>
    match assocFind st.groups vaccineName with
    | none => false
    | some ids => inocs.any (fun i => inoculationMatches i currentDate ids)

/-- `addInoculationToUserIndex` from `data_structures.c`: append to the
user's array, creating the user entry lazily. -/
def addInoculationToUserIndex :
    List (String × List Inoculation) → Inoculation → List (String × List Inoculation)
  | [], i => [(i.user, [i])]
  | (k, arr) :: rest, i =>
    if k = i.user then (k, arr ++ [i]) :: rest
    else (k, arr) :: addInoculationToUserIndex rest i

/-- `applyVaccine` from `command_a.c`: record the inoculation in the user
index and the global list (newest first), increment the chosen lot's
`dosesUsed` through the store, emit the lot id. -/
def applyVaccine (st : Registry) (userName : String) (lot : VaccineLot)
    (currentDate : Date) : List String × Registry :=
  let newInoc : Inoculation := ⟨userName, lot.lot, currentDate⟩
  ([lot.lot],
   { st with
     users := addInoculationToUserIndex st.users newInoc,
     inocList := newInoc :: st.inocList,
     lotMap := assocUpdate st.lotMap lot.lot { lot with dosesUsed := lot.dosesUsed + 1 } })

/-- `processVaccineApplication` from `command_a.c`: duplicate-per-day guard,
then allocation, then application. -/
def processVaccineApplication (st : Registry) (userName vaccineName : String)
    (currentDate : Date) (pt : Bool) : List String × Registry :=
  if isAlreadyVaccinated st userName vaccineName currentDate then
    ([msgAlreadyVaccinated pt], st)
  else
    match findOldestValidLot st vaccineName currentDate with
    | none => ([msgNoStock pt], st)
    | some lot => applyVaccine st userName lot currentDate

/-- `removeVaccineFromList` from `command_r.c`: unlink the first node of the
global lot list whose id matches (order preserving). -/
def removeVaccineFromList : List String → String → List String
  | [], _ => []
  | id :: rest, batch => if id = batch then rest else id :: removeVaccineFromList rest batch

/-- `removeVaccineFromNameIndex` from `command_r.c`: in the name group's
array, overwrite the first slot holding the batch with the last slot and
shrink the array by one (swap-with-last removal). -/
def removeVaccineFromNameIndex (ids : List String) (batch : String) : List String :=
  match ids.findIdx? (fun x => x = batch) with
  | none => ids
  | some i => (ids.set i (ids.getLast?.getD "")).dropLast

/-- Apply a function to the value stored under the first occurrence of a key
of an association list (used for the name-group update of a purge). -/
def assocModify {α : Type} : List (String × α) → String → (α → α) → List (String × α)
  | [], _, _ => []
  | (k, v) :: rest, key, f =>
    if k = key then (k, f v) :: rest else (k, v) :: assocModify rest key f

/-- `commandR` from `command_r.c`: report the used doses, then purge the lot
entirely when `dosesUsed == 0`, or freeze it in place (mark removed, clamp
`doses` down to `dosesUsed`) otherwise. -/
def commandR (st : Registry) (args : String) (pt : Bool) : List String × Registry :=
  if args = "" then ([msgMissingBatch pt], st)
  else
    match findVaccineByBatch st args with
    | none => ([msgNoSuchBatch pt args], st)
    | some lot =>
      if lot.dosesUsed = 0 then
        ([toString lot.dosesUsed],
         { st with
           lotMap := assocRemove st.lotMap args,
           groups := assocModify st.groups lot.name (fun ids => removeVaccineFromNameIndex ids args),
           batchList := removeVaccineFromList st.batchList args })
      else
        ([toString lot.dosesUsed],
         { st with
           lotMap := assocUpdate st.lotMap args { lot with isRemoved := true, doses := lot.dosesUsed } })

/-- `isDateFormatValid` from `command_d.c`: month in range, day in range for
the month, February adjusted in leap years. -/
def isDateFormatValid (d : Date) : Bool :=
  if d.month < 1 ∨ d.month > 12 then false
  else
    let dim : Int :=
      if d.month = 2 ∧ (d.year % 4 = 0 ∧ (d.year % 100 ≠ 0 ∨ d.year % 400 = 0)) then 29
      else [31, 28, 31, 30, 31, 30, 31, 31, 30, 31, 30, 31].getD (d.month - 1).toNat 0
    decide (d.day ≥ 1 ∧ d.day ≤ dim)

/-- `isDateFuture` from `command_d.c`. -/
def isDateFuture (d currentDate : Date) : Bool :=
  decide ((d.year > currentDate.year) ∨
    (d.year = currentDate.year ∧ d.month > currentDate.month) ∨
    (d.year = currentDate.year ∧ d.month = currentDate.month ∧ d.day > currentDate.day))

/-- `datesEqual` from `command_d.c`. -/
def datesEqual (a b : Date) : Bool :=
  decide (a.day = b.day ∧ a.month = b.month ∧ a.year = b.year)

/-- `inoculationMatchesCriteria` from `command_d.c`: user must match; absent
date filter matches everything; with a date, the lot filter (when present)
must also match. -/
def inoculationMatchesCriteria (inoc : Inoculation) (userName : String)
    (dateF : Option Date) (lotF : Option String) : Bool :=
  if inoc.user ≠ userName then false
  else
    match dateF with
    | none => true
    | some dt =>
      if ¬ datesEqual inoc.date dt then false
      else
        match lotF with
        | none => true
        | some l => decide (inoc.lot = l)

/-- `removeInoculationFromUser` from `command_d.c`: find the record in the
user's array, overwrite its slot with the last slot and shrink the array by
one (swap-with-last removal). -/
def removeInoculationFromUser (arr : List Inoculation) (toRemove : Inoculation) :
    List Inoculation :=
  match arr.findIdx? (fun x => x = toRemove) with
  | none => arr
  | some i => (arr.set i (arr.getLast?.getD default)).dropLast

/-- The loop of `removeMatchingInoculations` from `command_d.c`: walk the
global list (newest first), and for each matching record remove it from the
user's array (swap-with-last) and unlink it from the global list, counting
removals. -/
def removeMatchingLoop (userName : String) (dateF : Option Date)
    (lotF : Option String) :
    List Inoculation → List Inoculation → Int × List Inoculation × List Inoculation
  | [], arr => (0, [], arr)
  | c :: rest, arr =>
    if inoculationMatchesCriteria c userName dateF lotF then
      let r := removeMatchingLoop userName dateF lotF rest (removeInoculationFromUser arr c)
      (r.1 + 1, r.2.1, r.2.2)
    else
      let r := removeMatchingLoop userName dateF lotF rest arr
      (r.1, c :: r.2.1, r.2.2)

/-- The validated part of `commandD` (after argument parsing): user check,
then batch-filter check, then removal and count report. -/
def commandDValidated (st : Registry) (userName : String) (dateF : Option Date)
    (lotF : Option String) (pt : Bool) : List String × Registry :=
  match assocFind st.users userName with
  | none => ([msgNoSuchUser pt userName], st)
  | some arr =>
    if arr.length = 0 then ([msgNoSuchUser pt userName], st)
    else
      match lotF with
      | some l =>
        if (assocFind st.lotMap l).isNone then ([msgNoSuchBatch pt l], st)
        else
          let r := removeMatchingLoop userName dateF lotF st.inocList arr
          ([toString r.1],
           { st with inocList := r.2.1, users := assocUpdate st.users userName r.2.2 })
      | none =>
        let r := removeMatchingLoop userName dateF lotF st.inocList arr
        ([toString r.1],
         { st with inocList := r.2.1, users := assocUpdate st.users userName r.2.2 })

/-- `commandD` from `command_d.c`.  The date filter is given as the three
integers read by `sscanf`; `processDeleteArgs` validates it (calendar shape
and not-future) during parsing, before any other check, and reports
`invalid date` on failure.  Only then are the user and the batch filter
validated. -/
def commandD (st : Registry) (userName : String) (rawDate : Option Date)
    (lotF : Option String) (currentDate : Date) (pt : Bool) :
    List String × Registry :=
  match rawDate with
  | some dt =>
    if ¬ isDateFormatValid dt ∨ isDateFuture dt currentDate then
      ([msgInvalidDate pt], st)
    else commandDValidated st userName (some dt) lotF pt
  | none => commandDValidated st userName none lotF pt

/-- `isdigit` for the ASCII model used by the validators. -/
def isDigitChar (c : Char) : Bool := decide ('0' ≤ c ∧ c ≤ '9')

/-- `isspace` (C locale): space, tab, newline, vertical tab, form feed,
carriage return. -/
def isSpaceChar (c : Char) : Bool :=
  c = ' ' ∨ c = '\t' ∨ c = '\n' ∨ c = '\x0b' ∨ c = '\x0c' ∨ c = '\r'

/-- `isValidBatch` from `utils.c`: at most 20 characters, digits or `A`-`F`. -/
def isValidBatch (batch : String) : Bool :=
  batch.data.length ≤ 20 &&
  batch.data.all (fun c => isDigitChar c || decide ('A' ≤ c ∧ c ≤ 'F'))

/-- `isValidName` from `utils.c`: at most 50 characters, no whitespace. -/
def isValidName (name : String) : Bool :=
  name.data.length ≤ 50 && name.data.all (fun c => !isSpaceChar c)

/-- `getDaysInMonth` from `utils.c`. -/
def getDaysInMonth (month year : Int) : Int :=
  if month = 2 ∧ (year % 4 = 0 ∧ (year % 100 ≠ 0 ∨ year % 400 = 0)) then 29
  else [0, 31, 28, 31, 30, 31, 30, 31, 31, 30, 31, 30, 31].getD month.toNat 0

/-- `isDateNotEarlier` from `utils.c`. -/
def isDateNotEarlier (d currentDate : Date) : Bool :=
  if d.year < currentDate.year then false
  else if d.year = currentDate.year ∧ d.month < currentDate.month then false
  else if d.year = currentDate.year ∧ d.month = currentDate.month ∧
          d.day < currentDate.day then false
  else true

/-- `isValidDate` from `utils.c`: valid month, valid day for the month, not
earlier than the clock date. -/
def isValidDate (d currentDate : Date) : Bool :=
  if ¬ (d.month ≥ 1 ∧ d.month ≤ 12) then false
  else if ¬ (d.day ≥ 1 ∧ d.day ≤ getDaysInMonth d.month d.year) then false
  else isDateNotEarlier d currentDate

/-- Leading-delimiter skip of `strtok_r` with delimiter `" "`. -/
def dropSpacesTok : List Char → List Char
  | [] => []
  | c :: rest => if c = ' ' then dropSpacesTok rest else c :: rest

/-- Scan one token: the characters up to the first space; the rest starts
right after that single space (`strtok_r` replaces it by `NUL`). -/
def scanTok : List Char → List Char × List Char
  | [] => ([], [])
  | c :: rest =>
    if c = ' ' then ([], rest)
    else
      let r := scanTok rest
      (c :: r.1, r.2)

/-- One `strtok_r(_, " ", &rest)` call: skip leading spaces, then return the
token and the remaining characters, or `none` at the end of the string. -/
def strtokSp (s : List Char) : Option (List Char × List Char) :=
  match dropSpacesTok s with
  | [] => none
  | c :: rest =>
    let r := scanTok (c :: rest)
    some (r.1, r.2)

/-- `%d` of `sscanf`/`atoi`: optional sign then leading digits. Returns the
value and the unconsumed characters; `none` when no digit is present. -/
def scanIntDigits : List Char → Int → Int
  | [], acc => acc
  | c :: rest, acc =>
    if isDigitChar c then scanIntDigits rest (acc * 10 + (c.toNat - '0'.toNat : Int))
    else acc

def scanIntLen : List Char → Nat
  | [] => 0
  | c :: rest => if isDigitChar c then 1 + scanIntLen rest else 0

def parseIntL (s : List Char) : Option (Int × List Char) :=
  match s with
  | '-' :: rest =>
    if scanIntLen rest = 0 then none
    else some (-(scanIntDigits (rest.take (scanIntLen rest)) 0), rest.drop (scanIntLen rest))
  | '+' :: rest =>
    if scanIntLen rest = 0 then none
    else some (scanIntDigits (rest.take (scanIntLen rest)) 0, rest.drop (scanIntLen rest))
  | _ =>
    if scanIntLen s = 0 then none
    else some (scanIntDigits (s.take (scanIntLen s)) 0, s.drop (scanIntLen s))

/-- `parseValidationDate` from `command_c.c`: `sscanf(token, "%d-%d-%d")`. -/
def parseValidationDate (tok : List Char) : Option Date := do
  let (d, r1) ← parseIntL tok
  match r1 with
  | '-' :: r2 =>
    let (m, r3) ← parseIntL r2
    match r3 with
    | '-' :: r4 =>
      let (y, _) ← parseIntL r4
      pure ⟨d, m, y⟩
    | _ => none
  | _ => none

/-- `atoi`: 0 when no leading integer. -/
def atoiL (s : List Char) : Int :=
  match parseIntL s with
  | none => 0
  | some r => r.1

/-- `parseArgumentsC` from `command_c.c`: three space-separated tokens
(batch id, validation date, dose count) and the raw remainder of the string
as the vaccine name; any missing piece fails the parse. -/
def parseArgumentsC (args : List Char) : Option (String × Date × Int × String) :=
  match strtokSp args with
  | none => none
  | some (t1, r1) =>
    match strtokSp r1 with
    | none => none
    | some (t2, r2) =>
      match parseValidationDate t2 with
      | none => none
      | some validation =>
        match strtokSp r2 with
        | none => none
        | some (t3, r3) =>
          if r3 = [] then none
          else some (String.mk t1, validation, atoiL t3, String.mk r3)

/-- `addNewVaccineToSystem` from `command_c.c`: the capacity check comes
first, then the duplicate-id check, then the insertion into the id store,
the name group (created lazily, appended at the end) and the global list
(prepended). -/
def addNewVaccineToSystem (st : Registry) (batch name : String) (validation : Date)
    (doses : Int) (maxVaccines : Int) (pt : Bool) : List String × Registry :=
  if st.vaccineCount ≥ maxVaccines then ([msgTooManyVaccines pt], st)
  else if (findVaccineByBatch st batch).isSome then ([msgDuplicateBatch pt], st)
  else
    let newLot : VaccineLot := ⟨batch, name, validation, doses, 0, false⟩
    ([batch],
     { st with
       lotMap := (batch, newLot) :: st.lotMap,
       groups :=
         match assocFind st.groups name with
         | none => (name, [batch]) :: st.groups
         | some _ => assocModify st.groups name (fun ids => ids ++ [batch]),
       batchList := batch :: st.batchList,
       vaccineCount := st.vaccineCount + 1 })

/-- `validateNewVaccine` composed with `addNewVaccineToSystem`, as called by
`commandC` after a successful parse: batch format, name format, date
validity against the clock, positive quantity, then the add. -/
def registerParsed (st : Registry) (batch name : String) (validation : Date)
    (doses : Int) (currentDate : Date) (maxVaccines : Int) (pt : Bool) :
    List String × Registry :=
  if ¬ isValidBatch batch then ([msgInvalidBatch pt], st)
  else if ¬ isValidName name then ([msgInvalidName pt], st)
  else if ¬ isValidDate validation currentDate then ([msgInvalidDate pt], st)
  else if doses ≤ 0 then ([msgInvalidQuantity pt], st)
  else addNewVaccineToSystem st batch name validation doses maxVaccines pt

/-- `commandC` from `command_c.c`: a failed parse prints the out-of-memory
message (the C code reports `parseArgumentsC` failure with the same handler
as an allocation failure), otherwise validate and add. -/
def commandC (st : Registry) (args : String) (currentDate : Date)
    (maxVaccines : Int) (pt : Bool) : List String × Registry :=
  match parseArgumentsC args.data with
  | none => ([msgNoMemory pt], st)
  | some (batch, validation, doses, name) =>
    registerParsed st batch name validation doses currentDate maxVaccines pt

/-- `%02d`: two-digit zero padding as `printf` does for the in-range days
and months. -/
def pad2 (n : Int) : String :=
  if 0 ≤ n ∧ n ≤ 9 then "0" ++ toString n else toString n

/-- `printVaccine` from `command_l.c`:
`"%s %s %02d-%02d-%d %d %d"` with name, lot id, validation date, available
doses (`doses - dosesUsed`) and used doses. -/
def printVaccine (v : VaccineLot) : String :=
  v.name ++ " " ++ v.lot ++ " " ++ pad2 v.validation.day ++ "-" ++
    pad2 v.validation.month ++ "-" ++ toString v.validation.year ++ " " ++
    toString (v.doses - v.dosesUsed) ++ " " ++ toString v.dosesUsed

/-- `printInoculation` from `command_u.c`: `"%s %s %02d-%02d-%d"`. -/
def printInoculation (i : Inoculation) : String :=
  i.user ++ " " ++ i.lot ++ " " ++ pad2 i.date.day ++ "-" ++
    pad2 i.date.month ++ "-" ++ toString i.date.year

/-- `listInoculationsByUser` from `command_u.c`: unknown or empty user gives
the error line, otherwise one line per record of the user's array, in array
order. -/
def listInoculationsByUser (st : Registry) (userName : String) (pt : Bool) :
    List String :=
  match assocFind st.users userName with
  | none => [msgNoSuchUser pt userName]
  | some arr =>
    if arr.length = 0 then [msgNoSuchUser pt userName]
    else arr.map printInoculation

/-- The C arrays of lot pointers are modelled as functions from indices;
`swapVaccines` from `command_l.c`. -/
def cSwap (a : Nat → VaccineLot) (i j : Nat) : Nat → VaccineLot :=
  fun k => if k = i then a j else if k = j then a i else a k

/-- The scan loop of `partition` from `command_l.c` (Lomuto scheme).  Here
`i` holds the C value `i + 1`, so the C body `i++; swap(array[i], array[j])`
becomes a swap at `(i, j)` followed by `i + 1`. -/
def partitionLoop (pivot : VaccineLot) (a : Nat → VaccineLot) (i j high : Nat) :
    (Nat → VaccineLot) × Nat :=
  if j < high then
    if compareVaccines (a j) pivot ≤ 0 then
      partitionLoop pivot (cSwap a i j) (i + 1) (j + 1) high
    else partitionLoop pivot a i (j + 1) high
  else (a, i)
termination_by high - j

/-- `partition` from `command_l.c`: pivot is the last element; after the
scan, swap the pivot into place and return its index. -/
def partitionStep (a : Nat → VaccineLot) (low high : Nat) :
    (Nat → VaccineLot) × Nat :=
  let pivot := a high
  let r := partitionLoop pivot a low low high
  (cSwap r.1 r.2 high, r.2)

theorem partitionLoop_snd_bounds (pivot : VaccineLot) (a : Nat → VaccineLot)
    (i j high : Nat) :
    i ≤ (partitionLoop pivot a i j high).2 ∧
    (partitionLoop pivot a i j high).2 ≤ i + (high - j) := by
  induction a, i, j, high using partitionLoop.induct pivot with
  | case1 a i j high hj hc ih =>
    unfold partitionLoop
    simp only [if_pos hj, if_pos hc]
    omega
  | case2 a i j high hj hc ih =>
    unfold partitionLoop
    simp only [if_pos hj, if_neg hc]
    omega
  | case3 a i j high hj =>
    unfold partitionLoop
    simp only [if_neg hj]
    omega

theorem partitionStep_snd_bounds (a : Nat → VaccineLot) (low high : Nat)
    (h : low ≤ high) :
    low ≤ (partitionStep a low high).2 ∧ (partitionStep a low high).2 ≤ high := by
  unfold partitionStep
  have := partitionLoop_snd_bounds (a high) a low low high
  simp only
  omega

/-- The shifting inner `while` of `insertionSort` from `command_l.c`.  The C
index `j` is represented by `jp = j + 1` so that the loop guard `j >= low`
becomes `low < jp`; each iteration copies `array[j]` into `array[j+1]` and
steps down. -/
def insertLoop (key : VaccineLot) (a : Nat → VaccineLot) (low jp : Nat) :
    (Nat → VaccineLot) × Nat :=
  if low < jp ∧ ¬ compareVaccines (a (jp - 1)) key ≤ 0 then
    insertLoop key (fun k => if k = jp then a (jp - 1) else a k) low (jp - 1)
  else (a, jp)
termination_by jp

/-- The outer `for` of `insertionSort` from `command_l.c`: insert `array[i]`
into the sorted prefix, for `i` from `low + 1` up to `high`. -/
def insertionSortLoop (a : Nat → VaccineLot) (low i high : Nat) :
    Nat → VaccineLot :=
  if i ≤ high then
    insertionSortLoop
      (fun k => if k = (insertLoop (a i) a low i).2 then a i
        else (insertLoop (a i) a low i).1 k) low (i + 1) high
  else a
termination_by high + 1 - i

/-- `insertionSort` from `command_l.c`. -/
def insertionSortC (a : Nat → VaccineLot) (low high : Nat) : Nat → VaccineLot :=
  insertionSortLoop a low (low + 1) high

/-- `quickSort` from `command_l.c`: insertion sort for spans shorter than
10, otherwise Lomuto partition and two recursive calls. -/
def quickSortC (a : Nat → VaccineLot) (low high : Nat) : Nat → VaccineLot :=
  if h : low < high then
    if high - low < 10 then insertionSortC a low high
    else
      quickSortC
        (quickSortC (partitionStep a low high).1 low ((partitionStep a low high).2 - 1))
        ((partitionStep a low high).2 + 1) high
  else a
termination_by high - low
decreasing_by
  · have hb := partitionStep_snd_bounds a low high (le_of_lt h)
    omega
  · have hb := partitionStep_snd_bounds a low high (le_of_lt h)
    omega

/-- The list of values of a function array on the index window
`[low, low + len)`. -/
def segList (a : Nat → VaccineLot) (low len : Nat) : List VaccineLot :=
  (List.range' low len).map a

/-- Sortedness of a function array on the inclusive index window
`[low, high]`. -/
def SortedSeg (a : Nat → VaccineLot) (low high : Nat) : Prop :=
  ∀ i j, low ≤ i → i ≤ j → j ≤ high → compareVaccines (a i) (a j) ≤ 0

theorem segList_zero (a : Nat → VaccineLot) (low : Nat) : segList a low 0 = [] := rfl

theorem segList_succ (a : Nat → VaccineLot) (low n : Nat) :
    segList a low (n + 1) = a low :: segList a (low + 1) n := by
  unfold segList
  rw [List.range'_succ]
  rfl

theorem segList_one (a : Nat → VaccineLot) (low : Nat) : segList a low 1 = [a low] := by
  rw [segList_succ, segList_zero]

theorem segList_split (a : Nat → VaccineLot) (low m n : Nat) :
    segList a low (m + n) = segList a low m ++ segList a (low + m) n := by
  unfold segList
  rw [← List.map_append]
  have h2 := List.range'_append low m n 1
  simp only [one_mul] at h2
  rw [Nat.add_comm m n, ← h2]

theorem segList_congr (a b : Nat → VaccineLot) (low n : Nat)
    (h : ∀ k, low ≤ k → k < low + n → a k = b k) :
    segList a low n = segList b low n := by
  unfold segList
  apply List.map_congr_left
  intro k hk
  rw [List.mem_range'_1] at hk
  exact h k hk.1 hk.2

theorem mem_segList {x : VaccineLot} {a : Nat → VaccineLot} {low n : Nat} :
    x ∈ segList a low n ↔ ∃ k, low ≤ k ∧ k < low + n ∧ a k = x := by
  unfold segList
  simp only [List.mem_map, List.mem_range'_1]
  constructor
  · rintro ⟨k, ⟨h1, h2⟩, h3⟩; exact ⟨k, h1, h2, h3⟩
  · rintro ⟨k, h1, h2, h3⟩; exact ⟨k, ⟨h1, h2⟩, h3⟩

/-- Mapping a transposition of two members over a duplicate-free list is a
permutation of the list. -/
theorem map_swap_perm (l : List Nat) (i j : Nat) (hnd : l.Nodup)
    (hi : i ∈ l) (hj : j ∈ l) : (l.map (Equiv.swap i j)).Perm l := by
  rw [List.perm_iff_count]
  intro x
  have h1 := List.count_map_of_injective l (Equiv.swap i j)
    (Equiv.swap i j).injective (Equiv.swap i j x)
  rw [Equiv.swap_apply_self] at h1
  rw [h1]
  rcases eq_or_ne x i with rfl | hxi
  · rw [Equiv.swap_apply_left, List.count_eq_one_of_mem hnd hi,
      List.count_eq_one_of_mem hnd hj]
  · rcases eq_or_ne x j with rfl | hxj
    · rw [Equiv.swap_apply_right, List.count_eq_one_of_mem hnd hi,
        List.count_eq_one_of_mem hnd hj]
    · rw [Equiv.swap_apply_of_ne_of_ne hxi hxj]

theorem cSwap_eq_comp (a : Nat → VaccineLot) (i j : Nat) :
    cSwap a i j = fun k => a (Equiv.swap i j k) := by
  funext k
  simp only [cSwap, Equiv.swap_apply_def]
  split_ifs <;> simp_all

/-- Swapping two positions inside a window permutes the window's values. -/
theorem segList_cSwap_perm (a : Nat → VaccineLot) (i j low len : Nat)
    (hi1 : low ≤ i) (hi2 : i < low + len) (hj1 : low ≤ j) (hj2 : j < low + len) :
    (segList (cSwap a i j) low len).Perm (segList a low len) := by
  rw [cSwap_eq_comp]
  unfold segList
  have heq : (List.range' low len).map (fun k => a (Equiv.swap i j k)) =
      ((List.range' low len).map (Equiv.swap i j)).map a := by
    rw [List.map_map]
    rfl
  rw [heq]
  exact List.Perm.map a (map_swap_perm _ i j (List.nodup_range' _ _)
    (List.mem_range'_1.mpr ⟨hi1, hi2⟩) (List.mem_range'_1.mpr ⟨hj1, hj2⟩))

/-- Invariants of the Lomuto scan: positions `[i, result)` end up with
values no greater than the pivot, positions `[result, high)` with values
strictly greater; positions below the starting `i` and from `high` up are
untouched, and the window `[i, high)` is permuted. -/
theorem partitionLoop_spec (pivot : VaccineLot) :
    ∀ (a : Nat → VaccineLot) (i j high : Nat), i ≤ j → j ≤ high →
    (∀ k, i ≤ k → k < j → ¬ compareVaccines (a k) pivot ≤ 0) →
    (∀ k, i ≤ k → k < (partitionLoop pivot a i j high).2 →
        compareVaccines ((partitionLoop pivot a i j high).1 k) pivot ≤ 0) ∧
    (∀ k, (partitionLoop pivot a i j high).2 ≤ k → k < high →
        ¬ compareVaccines ((partitionLoop pivot a i j high).1 k) pivot ≤ 0) ∧
    (∀ k, k < i ∨ high ≤ k → (partitionLoop pivot a i j high).1 k = a k) ∧
    (segList (partitionLoop pivot a i j high).1 i (high - i)).Perm
      (segList a i (high - i)) := by
  intro a i j high
  induction a, i, j, high using partitionLoop.induct pivot with
  | case1 a i j high hj hc ih =>
    intro hij hjh hreg
    have hreg' : ∀ k, i + 1 ≤ k → k < j + 1 →
        ¬ compareVaccines (cSwap a i j k) pivot ≤ 0 := by
      intro k hk1 hk2
      by_cases hkj : k = j
      · subst hkj
        have hij' : i < k := by omega
        have hsw : cSwap a i k k = a i := by
          unfold cSwap
          rw [if_neg (by omega : ¬ k = i), if_pos (rfl : k = k)]
        rw [hsw]
        exact hreg i le_rfl hij'
      · have : cSwap a i j k = a k := by
          unfold cSwap
          simp only [if_neg (by omega : ¬ k = i), if_neg hkj]
        rw [this]
        exact hreg k (by omega) (by omega)
    obtain ⟨p1, p2, p3, p4⟩ := ih (by omega) (by omega) hreg'
    unfold partitionLoop
    simp only [if_pos hj, if_pos hc]
    have hri : (partitionLoop pivot (cSwap a i j) (i + 1) (j + 1) high).1 i =
        cSwap a i j i := p3 i (Or.inl (by omega))
    refine ⟨?_, p2, ?_, ?_⟩
    · intro k hk1 hk2
      by_cases hki : k = i
      · subst hki
        rw [hri]
        have hsw : cSwap a k j k = a j := by
          unfold cSwap
          rw [if_pos (rfl : k = k)]
        rw [hsw]
        exact hc
      · exact p1 k (by omega) hk2
    · intro k hk
      have h1 : (partitionLoop pivot (cSwap a i j) (i + 1) (j + 1) high).1 k =
          cSwap a i j k := p3 k (by omega)
      have h2 : cSwap a i j k = a k := by
        unfold cSwap
        simp only [if_neg (by omega : ¬ k = i), if_neg (by omega : ¬ k = j)]
      rw [h1, h2]
    · have hih : i < high := by omega
      have hlen : high - i = (high - (i + 1)) + 1 := by omega
      rw [hlen, segList_succ, segList_succ, hri]
      have step1 : (cSwap a i j i :: segList
          (partitionLoop pivot (cSwap a i j) (i + 1) (j + 1) high).1 (i + 1)
          (high - (i + 1))).Perm
          (cSwap a i j i :: segList (cSwap a i j) (i + 1) (high - (i + 1))) :=
        List.Perm.cons _ p4
      refine step1.trans ?_
      have step2 : (cSwap a i j i :: segList (cSwap a i j) (i + 1) (high - (i + 1))) =
          segList (cSwap a i j) i (high - i) := by
        rw [hlen, segList_succ]
      rw [step2, hlen, ← segList_succ]
      have hcs := segList_cSwap_perm a i j i ((high - (i + 1)) + 1)
        le_rfl (by omega) (by omega) (by omega)
      exact hcs
  | case2 a i j high hj hc ih =>
    intro hij hjh hreg
    have hreg' : ∀ k, i ≤ k → k < j + 1 → ¬ compareVaccines (a k) pivot ≤ 0 := by
      intro k hk1 hk2
      rcases Nat.lt_or_ge k j with hkj | hkj
      · exact hreg k hk1 hkj
      · have : k = j := by omega
        subst this
        exact hc
    obtain ⟨p1, p2, p3, p4⟩ := ih (by omega) (by omega) hreg'
    unfold partitionLoop
    simp only [if_pos hj, if_neg hc]
    exact ⟨p1, p2, p3, p4⟩
  | case3 a i j high hj =>
    intro hij hjh hreg
    unfold partitionLoop
    simp only [if_neg hj]
    refine ⟨?_, ?_, ?_, List.Perm.refl _⟩
    · intro k hk1 hk2
      omega
    · intro k hk1 hk2
      exact hreg k hk1 (by omega)
    · intro k hk
      trivial

/-- Specification of `partition`: the returned index is in range, values
left of it are no greater than the value placed there, values right of it
are strictly greater, indices outside `[low, high]` are untouched, and the
window `[low, high]` is permuted. -/
theorem partitionStep_spec (a : Nat → VaccineLot) (low high : Nat) (hlh : low < high) :
    (low ≤ (partitionStep a low high).2 ∧ (partitionStep a low high).2 ≤ high) ∧
    (∀ k, low ≤ k → k < (partitionStep a low high).2 →
        compareVaccines ((partitionStep a low high).1 k)
          ((partitionStep a low high).1 (partitionStep a low high).2) ≤ 0) ∧
    (∀ k, (partitionStep a low high).2 < k → k ≤ high →
        ¬ compareVaccines ((partitionStep a low high).1 k)
          ((partitionStep a low high).1 (partitionStep a low high).2) ≤ 0) ∧
    (∀ k, k < low ∨ high < k → (partitionStep a low high).1 k = a k) ∧
    (segList (partitionStep a low high).1 low (high + 1 - low)).Perm
      (segList a low (high + 1 - low)) := by
  obtain ⟨p1, p2, p3, p4⟩ :=
    partitionLoop_spec (a high) a low low high le_rfl (le_of_lt hlh)
      (fun k hk1 hk2 => absurd hk1 (by omega))
  have hbnd := partitionLoop_snd_bounds (a high) a low low high
  set b := (partitionLoop (a high) a low low high).1 with hb
  set iN := (partitionLoop (a high) a low low high).2 with hiN
  have hbh : b high = a high := p3 high (Or.inr le_rfl)
  have hres1 : ∀ k, (partitionStep a low high).1 k = cSwap b iN high k := by
    intro k
    unfold partitionStep
    rfl
  have hres2 : (partitionStep a low high).2 = iN := by
    unfold partitionStep
    rfl
  have hpivotpos : (partitionStep a low high).1 (partitionStep a low high).2 = a high := by
    rw [hres2, hres1]
    unfold cSwap
    rw [if_pos rfl, hbh]
  refine ⟨by rw [hres2]; omega, ?_, ?_, ?_, ?_⟩
  · intro k hk1 hk2
    rw [hres2] at hk2
    rw [hres1, hpivotpos]
    have hksw : cSwap b iN high k = b k := by
      unfold cSwap
      rw [if_neg (by omega : ¬ k = iN), if_neg (by omega : ¬ k = high)]
    rw [hksw]
    exact p1 k hk1 hk2
  · intro k hk1 hk2
    rw [hres2] at hk1
    rw [hres1, hpivotpos]
    have hiNh : iN < high := by omega
    rcases Nat.eq_or_lt_of_le hk2 with rfl | hkh
    · have hksw : cSwap b iN k k = b iN := by
        unfold cSwap
        rw [if_neg (by omega : ¬ k = iN), if_pos (rfl : k = k)]
      rw [hksw]
      exact p2 iN le_rfl hiNh
    · have hksw : cSwap b iN high k = b k := by
        unfold cSwap
        rw [if_neg (by omega : ¬ k = iN), if_neg (by omega : ¬ k = high)]
      rw [hksw]
      exact p2 k (by omega) hkh
  · intro k hk
    rw [hres1]
    have hksw : cSwap b iN high k = b k := by
      unfold cSwap
      rw [if_neg (by omega : ¬ k = iN), if_neg (by omega : ¬ k = high)]
    rw [hksw]
    exact p3 k (by omega)
  · have hseg : ∀ k, (partitionStep a low high).1 k = cSwap b iN high k := hres1
    have heq : segList (partitionStep a low high).1 low (high + 1 - low) =
        segList (cSwap b iN high) low (high + 1 - low) :=
      segList_congr _ _ _ _ (fun k _ _ => hseg k)
    rw [heq]
    have hswp : (segList (cSwap b iN high) low (high + 1 - low)).Perm
        (segList b low (high + 1 - low)) :=
      segList_cSwap_perm b iN high low (high + 1 - low)
        (by omega) (by omega) (by omega) (by omega)
    refine hswp.trans ?_
    have hlen : high + 1 - low = (high - low) + 1 := by omega
    rw [hlen, segList_split, segList_split]
    have hlh2 : low + (high - low) = high := by omega
    rw [hlh2, segList_one, segList_one, hbh]
    exact List.Perm.append p4 (List.Perm.refl _)

/-- Specification of the shifting inner loop of the insertion sort, stated
against the array at entry: the stop index is in `[low, jp]`, positions at
or below it and above `jp` are untouched, positions in between hold the
original value one slot down (each strictly greater than the key), and the
loop stops at `low` or at a value no greater than the key. -/
theorem insertLoop_spec (key : VaccineLot) :
    ∀ (a : Nat → VaccineLot) (low jp : Nat), low ≤ jp →
    (low ≤ (insertLoop key a low jp).2 ∧ (insertLoop key a low jp).2 ≤ jp) ∧
    (∀ k, k ≤ (insertLoop key a low jp).2 → (insertLoop key a low jp).1 k = a k) ∧
    (∀ k, jp < k → (insertLoop key a low jp).1 k = a k) ∧
    (∀ k, (insertLoop key a low jp).2 < k → k ≤ jp →
        (insertLoop key a low jp).1 k = a (k - 1) ∧
        ¬ compareVaccines (a (k - 1)) key ≤ 0) ∧
    ((insertLoop key a low jp).2 = low ∨
        compareVaccines (a ((insertLoop key a low jp).2 - 1)) key ≤ 0) := by
  intro a low jp
  induction a, low, jp using insertLoop.induct key with
  | case1 a low jp hcond ih =>
    intro hlj
    obtain ⟨hlow, hgt⟩ := hcond
    simp only [dite_eq_ite] at ih
    obtain ⟨q0, q1, q2, q3, q4⟩ := ih (by omega)
    unfold insertLoop
    rw [if_pos ⟨hlow, hgt⟩]
    refine ⟨⟨q0.1, by omega⟩, ?_, ?_, ?_, ?_⟩
    · intro k hk
      rw [q1 k hk]
      simp only [if_neg (show ¬ k = jp by omega)]
    · intro k hk
      rw [q2 k (by omega)]
      simp only [if_neg (show ¬ k = jp by omega)]
    · intro k hk1 hk2
      rcases Nat.eq_or_lt_of_le hk2 with rfl | hk2'
      · refine ⟨?_, hgt⟩
        rw [q2 k (by omega), if_pos (rfl : k = k)]
      · obtain ⟨h1, h2⟩ := q3 k hk1 (by omega)
        simp only [if_neg (show ¬ k - 1 = jp by omega)] at h1 h2
        exact ⟨h1, h2⟩
    · rcases q4 with h | h
      · exact Or.inl h
      · simp only [if_neg (show ¬ (insertLoop key
          (fun k => if k = jp then a (jp - 1) else a k) low (jp - 1)).2 - 1 = jp
          by omega)] at h
        exact Or.inr h
  | case2 a low jp hcond =>
    intro hlj
    unfold insertLoop
    rw [if_neg hcond]
    push_neg at hcond
    refine ⟨⟨hlj, le_rfl⟩, fun k _ => rfl, fun k _ => rfl, ?_, ?_⟩
    · intro k hk1 hk2
      omega
    · rcases Nat.eq_or_lt_of_le hlj with rfl | hlow
      · exact Or.inl rfl
      · exact Or.inr (hcond hlow)

theorem segShift (a : Nat → VaccineLot) (s n : Nat) :
    (List.range' (s + 1) n).map (fun k => a (k - 1)) = (List.range' s n).map a := by
  induction n generalizing s with
  | zero => rfl
  | succ n ih =>
    rw [List.range'_succ, List.range'_succ, List.map_cons, List.map_cons]
    have h2 : s + 1 - 1 = s := by omega
    rw [h2, ih (s + 1)]

/-- Specification of the outer insertion-sort loop: starting from a sorted
prefix `[low, i-1]`, the loop sorts the window `[low, high]`, touches
nothing outside it, and permutes it. -/
theorem insertionSortLoop_spec :
    ∀ (a : Nat → VaccineLot) (low i high : Nat), low < i →
    SortedSeg a low (i - 1) →
    SortedSeg (insertionSortLoop a low i high) low high ∧
    (∀ k, k < low ∨ high < k → insertionSortLoop a low i high k = a k) ∧
    (segList (insertionSortLoop a low i high) low (high + 1 - low)).Perm
      (segList a low (high + 1 - low)) := by
  intro a low i high
  induction a, low, i, high using insertionSortLoop.induct with
  | case1 a low i high hih ih =>
    intro hli hs
    simp only [dite_eq_ite] at ih
    obtain ⟨q0, q1, q2, q3, q4⟩ := insertLoop_spec (a i) a low i (le_of_lt hli)
    have hr2low : low ≤ (insertLoop (a i) a low i).2 := q0.1
    have hr2i : (insertLoop (a i) a low i).2 ≤ i := q0.2
    have ha2below : ∀ k, k ≤ (insertLoop (a i) a low i).2 →
        k ≠ (insertLoop (a i) a low i).2 →
        (if k = (insertLoop (a i) a low i).2 then a i
          else (insertLoop (a i) a low i).1 k) = a k := by
      intro k hk1 hk2
      rw [if_neg hk2]
      exact q1 k hk1
    have ha2at : (if (insertLoop (a i) a low i).2 = (insertLoop (a i) a low i).2 then a i
        else (insertLoop (a i) a low i).1 (insertLoop (a i) a low i).2) = a i := by
      simp
    have ha2shift : ∀ k, (insertLoop (a i) a low i).2 < k → k ≤ i →
        (if k = (insertLoop (a i) a low i).2 then a i
          else (insertLoop (a i) a low i).1 k) = a (k - 1) ∧
        ¬ compareVaccines (a (k - 1)) (a i) ≤ 0 := by
      intro k hk1 hk2
      obtain ⟨h1, h2⟩ := q3 k hk1 hk2
      refine ⟨?_, h2⟩
      rw [if_neg (show ¬ k = (insertLoop (a i) a low i).2 by omega)]
      exact h1
    have ha2above : ∀ k, i < k →
        (if k = (insertLoop (a i) a low i).2 then a i
          else (insertLoop (a i) a low i).1 k) = a k := by
      intro k hk
      rw [if_neg (show ¬ k = (insertLoop (a i) a low i).2 by omega)]
      exact q2 k hk
    have hkeyle : ∀ m, low ≤ m → m < (insertLoop (a i) a low i).2 →
        compareVaccines (a m) (a i) ≤ 0 := by
      intro m hm1 hm2
      rcases q4 with h | h
      · omega
      · have hstep : compareVaccines (a m) (a ((insertLoop (a i) a low i).2 - 1)) ≤ 0 :=
          hs m ((insertLoop (a i) a low i).2 - 1) hm1 (by omega) (by omega)
        exact compareVaccines_trans_le hstep h
    have hsorted2 : SortedSeg (fun k => if k = (insertLoop (a i) a low i).2 then a i
        else (insertLoop (a i) a low i).1 k) low i := by
      intro p q hp hpq hq
      beta_reduce
      rcases Nat.eq_or_lt_of_le hpq with rfl | hplt
      · rw [compareVaccines_self]
      · rcases Nat.lt_trichotomy q (insertLoop (a i) a low i).2 with hq2 | hq2 | hq2
        · rw [ha2below p (by omega) (by omega), ha2below q (by omega) (by omega)]
          exact hs p q hp (by omega) (by omega)
        · subst hq2
          rw [ha2at, ha2below p (by omega) (by omega)]
          exact hkeyle p hp (by omega)
        · obtain ⟨hq3, _⟩ := ha2shift q hq2 hq
          rw [hq3]
          rcases Nat.lt_trichotomy p (insertLoop (a i) a low i).2 with hp2 | hp2 | hp2
          · rw [ha2below p (by omega) (by omega)]
            exact hs p (q - 1) hp (by omega) (by omega)
          · subst hp2
            rw [ha2at]
            have hgt2 := (ha2shift q hq2 hq).2
            have hanti := compareVaccines_antisymm (a (q - 1)) (a i)
            omega
          · obtain ⟨hp3, _⟩ := ha2shift p hp2 (by omega)
            rw [hp3]
            exact hs (p - 1) (q - 1) (by omega) (by omega) (by omega)
    have hperm2 : (segList (fun k => if k = (insertLoop (a i) a low i).2 then a i
        else (insertLoop (a i) a low i).1 k) low (i + 1 - low)).Perm
        (segList a low (i + 1 - low)) := by
      have hsplit1 : i + 1 - low = ((insertLoop (a i) a low i).2 - low) +
          ((i - (insertLoop (a i) a low i).2) + 1) := by omega
      have hlr2 : low + ((insertLoop (a i) a low i).2 - low) =
          (insertLoop (a i) a low i).2 := by omega
      have hseg1 : segList (fun k => if k = (insertLoop (a i) a low i).2 then a i
          else (insertLoop (a i) a low i).1 k) low ((insertLoop (a i) a low i).2 - low) =
          segList a low ((insertLoop (a i) a low i).2 - low) := by
        apply segList_congr
        intro k hk1 hk2
        exact ha2below k (by omega) (by omega)
      have hseg2 : segList (fun k => if k = (insertLoop (a i) a low i).2 then a i
          else (insertLoop (a i) a low i).1 k) ((insertLoop (a i) a low i).2 + 1)
          (i - (insertLoop (a i) a low i).2) =
          segList a (insertLoop (a i) a low i).2 (i - (insertLoop (a i) a low i).2) := by
        unfold segList
        have hcg : (List.range' ((insertLoop (a i) a low i).2 + 1)
            (i - (insertLoop (a i) a low i).2)).map
            (fun k => if k = (insertLoop (a i) a low i).2 then a i
              else (insertLoop (a i) a low i).1 k) =
            (List.range' ((insertLoop (a i) a low i).2 + 1)
            (i - (insertLoop (a i) a low i).2)).map (fun k => a (k - 1)) := by
          apply List.map_congr_left
          intro k hk
          rw [List.mem_range'_1] at hk
          exact (ha2shift k (by omega) (by omega)).1
        rw [hcg, segShift]
      have hLHS : segList (fun k => if k = (insertLoop (a i) a low i).2 then a i
          else (insertLoop (a i) a low i).1 k) low (i + 1 - low) =
          segList a low ((insertLoop (a i) a low i).2 - low) ++
          (a i :: segList a (insertLoop (a i) a low i).2
            (i - (insertLoop (a i) a low i).2)) := by
        rw [hsplit1,
          segList_split _ low ((insertLoop (a i) a low i).2 - low)
            ((i - (insertLoop (a i) a low i).2) + 1),
          hlr2, hseg1, segList_succ]
        rw [ha2at, hseg2]
      have hRHS : segList a low (i + 1 - low) =
          segList a low ((insertLoop (a i) a low i).2 - low) ++
          (segList a (insertLoop (a i) a low i).2
            (i - (insertLoop (a i) a low i).2) ++ [a i]) := by
        rw [hsplit1,
          segList_split a low ((insertLoop (a i) a low i).2 - low)
            ((i - (insertLoop (a i) a low i).2) + 1),
          hlr2,
          segList_split a (insertLoop (a i) a low i).2
            (i - (insertLoop (a i) a low i).2) 1,
          segList_one]
        have hido : (insertLoop (a i) a low i).2 +
            (i - (insertLoop (a i) a low i).2) = i := by omega
        rw [hido]
      rw [hLHS, hRHS]
      apply List.Perm.append_left
      have hcons : (a i :: segList a (insertLoop (a i) a low i).2
          (i - (insertLoop (a i) a low i).2)) =
          [a i] ++ segList a (insertLoop (a i) a low i).2
          (i - (insertLoop (a i) a low i).2) := rfl
      rw [hcons]
      exact List.perm_append_comm
    obtain ⟨w1, w2, w3⟩ := ih (by omega) (by simpa using hsorted2)
    unfold insertionSortLoop
    rw [if_pos hih]
    refine ⟨w1, ?_, ?_⟩
    · intro k hk
      rw [w2 k hk]
      rcases hk with hk | hk
      · exact ha2below k (by omega) (by omega)
      · exact ha2above k (by omega)
    · refine w3.trans ?_
      have hsplit3 : high + 1 - low = (i + 1 - low) + (high - i) := by omega
      have hli2 : low + (i + 1 - low) = i + 1 := by omega
      have hseg3 : segList (fun k => if k = (insertLoop (a i) a low i).2 then a i
          else (insertLoop (a i) a low i).1 k) (i + 1) (high - i) =
          segList a (i + 1) (high - i) := by
        apply segList_congr
        intro k hk1 hk2
        exact ha2above k (by omega)
      rw [hsplit3, segList_split _ low (i + 1 - low) (high - i),
        segList_split a low (i + 1 - low) (high - i), hli2, hseg3]
      exact List.Perm.append hperm2 (List.Perm.refl _)
  | case2 a low i high hih =>
    intro hli hs
    unfold insertionSortLoop
    rw [if_neg hih]
    refine ⟨?_, fun k _ => rfl, List.Perm.refl _⟩
    intro p q hp hpq hq
    exact hs p q hp hpq (by omega)

theorem quickSortC_of_not_lt (a : Nat → VaccineLot) (low high : Nat)
    (h : ¬ low < high) : quickSortC a low high = a := by
  unfold quickSortC
  rw [dif_neg h]

/-- Correctness of the hybrid `quickSort` of `command_l.c`: the window
`[low, high]` ends up sorted under `compareVaccines`, everything outside it
is untouched, and the window's values are permuted. -/
theorem quickSortC_spec :
    ∀ (a : Nat → VaccineLot) (low high : Nat),
    SortedSeg (quickSortC a low high) low high ∧
    (∀ k, k < low ∨ high < k → quickSortC a low high k = a k) ∧
    (segList (quickSortC a low high) low (high + 1 - low)).Perm
      (segList a low (high + 1 - low)) := by
  intro a low high
  induction a, low, high using quickSortC.induct with
  | case1 a low high h h10 =>
    unfold quickSortC
    rw [dif_pos h, if_pos h10]
    unfold insertionSortC
    exact insertionSortLoop_spec a low (low + 1) high (by omega)
      (fun p q hp hpq hq => by
        have hpq2 : p = q := by omega
        rw [hpq2, compareVaccines_self])
  | case2 a low high h h10 ih1 ih2 =>
    have hps := partitionStep_spec a low high h
    obtain ⟨⟨hpil, hpih⟩, hA, hB, hF, hP⟩ := hps
    obtain ⟨s1, f1, p1⟩ := ih1
    obtain ⟨s2, f2, p2⟩ := ih2
    have hb1ge : ∀ k, (partitionStep a low high).2 ≤ k →
        quickSortC (partitionStep a low high).1 low ((partitionStep a low high).2 - 1) k =
        (partitionStep a low high).1 k := by
      by_cases hlp : low < (partitionStep a low high).2
      · intro k hk
        exact f1 k (Or.inr (by omega))
      · have hid := quickSortC_of_not_lt (partitionStep a low high).1 low
          ((partitionStep a low high).2 - 1) (by omega)
        intro k hk
        rw [hid]
    have hb1lt : ∀ k, k < low →
        quickSortC (partitionStep a low high).1 low ((partitionStep a low high).2 - 1) k =
        (partitionStep a low high).1 k := by
      intro k hk
      exact f1 k (Or.inl hk)
    have hpermleft : (segList (quickSortC (partitionStep a low high).1 low
        ((partitionStep a low high).2 - 1)) low ((partitionStep a low high).2 - low)).Perm
        (segList (partitionStep a low high).1 low
          ((partitionStep a low high).2 - low)) := by
      by_cases hlp : low < (partitionStep a low high).2
      · have hlen : ((partitionStep a low high).2 - 1) + 1 - low =
            (partitionStep a low high).2 - low := by omega
        rw [hlen] at p1
        exact p1
      · have hlen0 : (partitionStep a low high).2 - low = 0 := by omega
        rw [hlen0, segList_zero, segList_zero]
    have hb2pi : quickSortC (quickSortC (partitionStep a low high).1 low
        ((partitionStep a low high).2 - 1)) ((partitionStep a low high).2 + 1) high
        (partitionStep a low high).2 = (partitionStep a low high).1
        (partitionStep a low high).2 := by
      rw [f2 (partitionStep a low high).2 (Or.inl (by omega))]
      exact hb1ge (partitionStep a low high).2 le_rfl
    have hleftval : ∀ x, x ∈ segList (quickSortC (partitionStep a low high).1 low
        ((partitionStep a low high).2 - 1)) low ((partitionStep a low high).2 - low) →
        compareVaccines x ((partitionStep a low high).1 (partitionStep a low high).2) ≤ 0 := by
      intro x hx
      have hx2 := hpermleft.subset hx
      rw [mem_segList] at hx2
      obtain ⟨k, hk1, hk2, hk3⟩ := hx2
      rw [← hk3]
      exact hA k hk1 (by omega)
    have hrightval : ∀ x, x ∈ segList (quickSortC (quickSortC
        (partitionStep a low high).1 low ((partitionStep a low high).2 - 1))
        ((partitionStep a low high).2 + 1) high) ((partitionStep a low high).2 + 1)
        (high - (partitionStep a low high).2) →
        ¬ compareVaccines x ((partitionStep a low high).1 (partitionStep a low high).2) ≤ 0 := by
      intro x hx
      have hlen : high + 1 - ((partitionStep a low high).2 + 1) =
          high - (partitionStep a low high).2 := by omega
      rw [hlen] at p2
      have hx2 := p2.subset hx
      have hseg : segList (quickSortC (partitionStep a low high).1 low
          ((partitionStep a low high).2 - 1)) ((partitionStep a low high).2 + 1)
          (high - (partitionStep a low high).2) =
          segList (partitionStep a low high).1 ((partitionStep a low high).2 + 1)
          (high - (partitionStep a low high).2) :=
        segList_congr _ _ _ _ (fun k hk1 hk2 => hb1ge k (by omega))
      rw [hseg, mem_segList] at hx2
      obtain ⟨k, hk1, hk2, hk3⟩ := hx2
      rw [← hk3]
      exact hB k (by omega) (by omega)
    unfold quickSortC
    rw [dif_pos h, if_neg h10]
    refine ⟨?_, ?_, ?_⟩
    · intro p q hp hpq hq
      rcases Nat.lt_trichotomy q (partitionStep a low high).2 with hq2 | hq2 | hq2
      · have hbp := f2 p (Or.inl (by omega))
        have hbq := f2 q (Or.inl (by omega))
        rw [hbp, hbq]
        exact s1 p q hp hpq (by omega)
      · subst hq2
        rcases Nat.eq_or_lt_of_le hpq with rfl | hplt
        · rw [compareVaccines_self]
        · have hbp := f2 p (Or.inl (by omega))
          rw [hbp, hb2pi]
          apply hleftval
          rw [mem_segList]
          exact ⟨p, hp, by omega, rfl⟩
      · rcases Nat.lt_trichotomy p (partitionStep a low high).2 with hp2 | hp2 | hp2
        · have hgt := hrightval (quickSortC (quickSortC
            (partitionStep a low high).1 low ((partitionStep a low high).2 - 1))
            ((partitionStep a low high).2 + 1) high q)
            (by rw [mem_segList]; exact ⟨q, by omega, by omega, rfl⟩)
          have hle := hleftval (quickSortC (partitionStep a low high).1 low
            ((partitionStep a low high).2 - 1) p)
            (by rw [mem_segList]; exact ⟨p, hp, by omega, rfl⟩)
          have hbp := f2 p (Or.inl (by omega))
          rw [hbp]
          have hanti := compareVaccines_antisymm
            (quickSortC (quickSortC (partitionStep a low high).1 low
              ((partitionStep a low high).2 - 1)) ((partitionStep a low high).2 + 1) high q)
            ((partitionStep a low high).1 (partitionStep a low high).2)
          refine compareVaccines_trans_le hle ?_
          omega
        · subst hp2
          have hgt := hrightval (quickSortC (quickSortC
            (partitionStep a low high).1 low ((partitionStep a low high).2 - 1))
            ((partitionStep a low high).2 + 1) high q)
            (by rw [mem_segList]; exact ⟨q, by omega, by omega, rfl⟩)
          rw [hb2pi]
          have hanti := compareVaccines_antisymm
            (quickSortC (quickSortC (partitionStep a low high).1 low
              ((partitionStep a low high).2 - 1)) ((partitionStep a low high).2 + 1) high q)
            ((partitionStep a low high).1 (partitionStep a low high).2)
          omega
        · exact s2 p q (by omega) hpq hq
    · intro k hk
      have h1 := f2 k (by rcases hk with hk | hk; exact Or.inl (by omega); exact Or.inr hk)
      rw [h1]
      have h2 : quickSortC (partitionStep a low high).1 low
          ((partitionStep a low high).2 - 1) k = (partitionStep a low high).1 k := by
        rcases hk with hk | hk
        · exact hb1lt k hk
        · exact hb1ge k (by omega)
      rw [h2]
      exact hF k (by omega)
    · have hsplit : high + 1 - low = ((partitionStep a low high).2 - low) +
          ((high - (partitionStep a low high).2) + 1) := by omega
      have hlp2 : low + ((partitionStep a low high).2 - low) =
          (partitionStep a low high).2 := by omega
      have hlen2 : high + 1 - ((partitionStep a low high).2 + 1) =
          high - (partitionStep a low high).2 := by omega
      rw [hlen2] at p2
      have hseg1 : segList (quickSortC (quickSortC (partitionStep a low high).1 low
          ((partitionStep a low high).2 - 1)) ((partitionStep a low high).2 + 1) high)
          low ((partitionStep a low high).2 - low) =
          segList (quickSortC (partitionStep a low high).1 low
            ((partitionStep a low high).2 - 1)) low ((partitionStep a low high).2 - low) :=
        segList_congr _ _ _ _ (fun k hk1 hk2 => f2 k (Or.inl (by omega)))
      have hseg2 : segList (quickSortC (partitionStep a low high).1 low
          ((partitionStep a low high).2 - 1)) ((partitionStep a low high).2 + 1)
          (high - (partitionStep a low high).2) =
          segList (partitionStep a low high).1 ((partitionStep a low high).2 + 1)
          (high - (partitionStep a low high).2) :=
        segList_congr _ _ _ _ (fun k hk1 hk2 => hb1ge k (by omega))
      have e1 : segList (quickSortC (quickSortC (partitionStep a low high).1 low
          ((partitionStep a low high).2 - 1)) ((partitionStep a low high).2 + 1) high)
          low (high + 1 - low) =
          segList (quickSortC (partitionStep a low high).1 low
            ((partitionStep a low high).2 - 1)) low ((partitionStep a low high).2 - low) ++
          ((partitionStep a low high).1 (partitionStep a low high).2 ::
            segList (quickSortC (quickSortC (partitionStep a low high).1 low
              ((partitionStep a low high).2 - 1)) ((partitionStep a low high).2 + 1) high)
            ((partitionStep a low high).2 + 1) (high - (partitionStep a low high).2)) := by
        rw [hsplit,
          segList_split _ low ((partitionStep a low high).2 - low)
            ((high - (partitionStep a low high).2) + 1),
          hlp2, hseg1, segList_succ, hb2pi]
      have e3 : segList (partitionStep a low high).1 low (high + 1 - low) =
          segList (partitionStep a low high).1 low ((partitionStep a low high).2 - low) ++
          ((partitionStep a low high).1 (partitionStep a low high).2 ::
            segList (partitionStep a low high).1 ((partitionStep a low high).2 + 1)
            (high - (partitionStep a low high).2)) := by
        rw [hsplit,
          segList_split _ low ((partitionStep a low high).2 - low)
            ((high - (partitionStep a low high).2) + 1),
          hlp2, segList_succ]
      have ptail : (segList (quickSortC (quickSortC (partitionStep a low high).1 low
          ((partitionStep a low high).2 - 1)) ((partitionStep a low high).2 + 1) high)
          ((partitionStep a low high).2 + 1) (high - (partitionStep a low high).2)).Perm
          (segList (partitionStep a low high).1 ((partitionStep a low high).2 + 1)
            (high - (partitionStep a low high).2)) := by
        rw [← hseg2]
        exact p2
      have hmid := List.Perm.append hpermleft
        (List.Perm.cons ((partitionStep a low high).1 (partitionStep a low high).2) ptail)
      rw [e1]
      refine hmid.trans ?_
      rw [← e3]
      exact hP
  | case3 a low high h =>
    rw [quickSortC_of_not_lt a low high h]
    refine ⟨?_, fun k _ => rfl, List.Perm.refl _⟩
    intro p q hp hpq hq
    have : p = q := by omega
    rw [this, compareVaccines_self]

/-- `listAllVaccines` from `command_l.c`: count the global list, copy it
into an array in list order, quicksort with `compareVaccines`, and print
one line per entry. -/
def listAllVaccines (l : List VaccineLot) : List String :=
  if l.length = 0 then []
  else
    (List.range l.length).map
      (fun k => printVaccine (quickSortC (fun k => l.getD k default) 0 (l.length - 1) k))

/-- `listAllVaccines` at the registry level: the global lot list
dereferenced through the store. -/
def commandLAll (st : Registry) : List String :=
  listAllVaccines (derefLots st st.batchList)

/-- `listVaccinesByName` from `command_l.c`: absent or empty group reports
`no such vaccine`; otherwise the group's lots are copied and the copy is
quicksorted, but the lines printed come from the original, unsorted group
array (`printVaccineLots(nameEntry)`), so the sorted copy is discarded. -/
def listVaccinesByName (st : Registry) (vaccineName : String) (pt : Bool) :
    List String :=
  match assocFind st.groups vaccineName with
  | none => [msgNoSuchVaccine pt vaccineName]
  | some ids =>
    if ids.length = 0 then [msgNoSuchVaccine pt vaccineName]
    else
      let _sortedCopy := fun k =>
        quickSortC (fun k => (derefLots st ids).getD k default) 0
          ((derefLots st ids).length - 1) k
      (derefLots st ids).map printVaccine

theorem segShiftUp (a : Nat → VaccineLot) (s n : Nat) :
    (List.range' (s + 1) n).map a = (List.range' s n).map (fun k => a (k + 1)) := by
  induction n generalizing s with
  | zero => rfl
  | succ n ih =>
    rw [List.range'_succ, List.range'_succ, List.map_cons, List.map_cons]
    rw [ih (s + 1)]

/-- A function array read back over the whole index range of a list it
agrees with gives the list back. -/
theorem segList_of_getD (l : List VaccineLot) :
    ∀ (f : Nat → VaccineLot), (∀ k, k < l.length → f k = l.getD k default) →
    segList f 0 l.length = l := by
  induction l with
  | nil => intro f hf; rfl
  | cons x l ih =>
    intro f hf
    have h0 : segList f 0 (l.length + 1) = f 0 :: segList f 1 l.length := by
      rw [show l.length + 1 = 1 + l.length by omega]
      rw [segList_split f 0 1 l.length, segList_one]
      rfl
    rw [List.length_cons, h0, hf 0 (by simp)]
    have h1 : segList f 1 l.length = segList (fun k => f (k + 1)) 0 l.length := by
      unfold segList
      rw [show (1 : Nat) = 0 + 1 by rfl, segShiftUp]
    rw [h1, ih (fun k => f (k + 1)) (fun k hk => hf (k + 1) (by simp only [List.length_cons]; omega))]
    rfl

theorem sortedSeg_pairwise (a : Nat → VaccineLot) (low n : Nat)
    (hs : SortedSeg a low (low + n - 1)) :
    (segList a low n).Pairwise (fun x y => compareVaccines x y ≤ 0) := by
  unfold segList
  rw [List.pairwise_map]
  have hpl : (List.range' low n).Pairwise (· < ·) := List.pairwise_lt_range' _ _
  refine hpl.imp_of_mem ?_
  intro p q hp hq hpq
  rw [List.mem_range'_1] at hp hq
  exact hs p q hp.1 (le_of_lt hpq) (by omega)

/-- `listAllVaccines` prints a permutation of its input, one line per lot,
in `compareVaccines` order. -/
theorem listAllVaccines_spec (l : List VaccineLot) :
    ∃ l' : List VaccineLot, l'.Perm l ∧
      l'.Pairwise (fun x y => compareDates x.validation y.validation < 0 ∨
        (x.validation = y.validation ∧ strcmpS x.lot y.lot ≤ 0)) ∧
      listAllVaccines l = l'.map printVaccine := by
  by_cases hl : l.length = 0
  · refine ⟨[], ?_, List.Pairwise.nil, ?_⟩
    · rw [List.length_eq_zero] at hl
      rw [hl]
    · unfold listAllVaccines
      rw [if_pos hl]
      rfl
  · obtain ⟨hs, hf, hp⟩ := quickSortC_spec (fun k => l.getD k default) 0 (l.length - 1)
    refine ⟨segList (quickSortC (fun k => l.getD k default) 0 (l.length - 1)) 0 l.length,
      ?_, ?_, ?_⟩
    · have hlen : l.length - 1 + 1 - 0 = l.length := by omega
      rw [hlen] at hp
      refine hp.trans ?_
      rw [segList_of_getD l (fun k => l.getD k default) (fun k hk => rfl)]
    · have hsp := sortedSeg_pairwise (quickSortC (fun k => l.getD k default) 0
        (l.length - 1)) 0 l.length (by simpa using hs)
      refine hsp.imp ?_
      intro x y hxy
      exact (compareVaccines_le_iff x y).mp hxy
    · unfold listAllVaccines
      rw [if_neg hl]
      unfold segList
      rw [List.range_eq_range', List.map_map]
      rfl

/-- C5: For every state, `ListAllBatches` prints exactly the live batches
(the global lot list dereferenced through the store), one line per batch in
the `printVaccine` format (`name id validUntil availableDoses usedDoses`
with `availableDoses = doses - dosesUsed`), ordered by validation date
ascending, ties broken by lexicographically (`strcmp`) ascending batch id. -/
theorem commandLAll_sorted_output (st : Registry) :
    ∃ l' : List VaccineLot, l'.Perm (derefLots st st.batchList) ∧
      l'.Pairwise (fun x y => compareDates x.validation y.validation < 0 ∨
        (x.validation = y.validation ∧ strcmpS x.lot y.lot ≤ 0)) ∧
      commandLAll st = l'.map printVaccine :=
  listAllVaccines_spec (derefLots st st.batchList)

theorem assocFind_eq_none_of_not_mem_keys {α : Type} (m : List (String × α))
    (k : String) (h : k ∉ m.map Prod.fst) : assocFind m k = none := by
  induction m with
  | nil => rfl
  | cons e rest ih =>
    obtain ⟨k', v⟩ := e
    simp only [List.map_cons, List.mem_cons] at h
    push_neg at h
    unfold assocFind
    rw [if_neg (fun he => h.1 he.symm)]
    exact ih h.2

theorem assocFind_assocRemove_self {α : Type} (m : List (String × α)) (k : String)
    (hnd : (m.map Prod.fst).Nodup) : assocFind (assocRemove m k) k = none := by
  induction m with
  | nil => rfl
  | cons e rest ih =>
    obtain ⟨k', v⟩ := e
    rw [List.map_cons, List.nodup_cons] at hnd
    unfold assocRemove
    by_cases hk : k' = k
    · rw [if_pos hk]
      subst hk
      exact assocFind_eq_none_of_not_mem_keys rest k' hnd.1
    · rw [if_neg hk]
      unfold assocFind
      rw [if_neg hk]
      exact ih hnd.2

theorem not_mem_removeVaccineFromList (bl : List String) (b : String)
    (hnd : bl.Nodup) : b ∉ removeVaccineFromList bl b := by
  induction bl with
  | nil => simp [removeVaccineFromList]
  | cons x rest ih =>
    rw [List.nodup_cons] at hnd
    unfold removeVaccineFromList
    by_cases hx : x = b
    · rw [if_pos hx]
      subst hx
      exact hnd.1
    · rw [if_neg hx]
      intro hmem
      rcases List.mem_cons.mp hmem with h | h
      · exact hx h.symm
      · exact ih hnd.2 h

theorem assocFind_assocModify_self {α : Type} (m : List (String × α)) (k : String)
    (f : α → α) : assocFind (assocModify m k f) k = (assocFind m k).map f := by
  induction m with
  | nil => rfl
  | cons e rest ih =>
    obtain ⟨k', v⟩ := e
    unfold assocModify
    by_cases hk : k' = k
    · rw [if_pos hk]
      unfold assocFind
      rw [if_pos hk, if_pos hk]
      rfl
    · rw [if_neg hk]
      unfold assocFind
      rw [if_neg hk, if_neg hk]
      exact ih

theorem assocFind_assocUpdate_self {α : Type} (m : List (String × α)) (k : String)
    (v : α) : assocFind (assocUpdate m k v) k = (assocFind m k).map (fun _ => v) := by
  induction m with
  | nil => rfl
  | cons e rest ih =>
    obtain ⟨k', v'⟩ := e
    unfold assocUpdate
    by_cases hk : k' = k
    · subst hk
      simp [assocFind]
    · rw [if_neg hk]
      unfold assocFind
      rw [if_neg hk, if_neg hk]
      exact ih

/-- Swap-with-last removal (`removeVaccineFromNameIndex`) of an element of a
duplicate-free array leaves an array without it. -/
theorem swapLast_not_mem (ids : List String) (b : String) (hnd : ids.Nodup) :
    b ∉ removeVaccineFromNameIndex ids b := by
  unfold removeVaccineFromNameIndex
  cases hidx : ids.findIdx? (fun x => x = b) with
  | none =>
    rw [List.findIdx?_eq_none_iff] at hidx
    intro hmem
    have := hidx b hmem
    simp at this
  | some i =>
    rw [List.findIdx?_eq_some_iff_getElem] at hidx
    obtain ⟨hi, hpi, hprev⟩ := hidx
    have hib : ids[i] = b := by simpa using hpi
    intro hmem
    rw [List.mem_iff_getElem] at hmem
    obtain ⟨j, hj, hjv⟩ := hmem
    have hj2 : j < ids.length - 1 := by
      have := hj
      rw [List.length_dropLast, List.length_set] at this
      exact this
    rw [List.getElem_dropLast, List.getElem_set] at hjv
    by_cases hij : i = j
    · rw [if_pos hij] at hjv
      have hne2 : ids ≠ [] := by
        intro hnil
        rw [hnil] at hi
        simp at hi
      have hlast : ids.getLast?.getD "" = ids.getLast hne2 := by
        rw [List.getLast?_eq_getLast ids hne2]
        rfl
      rw [hlast, List.getLast_eq_getElem] at hjv
      have heq : ids.length - 1 = i := hnd.getElem_inj_iff.mp (hjv.trans hib.symm)
      omega
    · rw [if_neg hij] at hjv
      have heq : j = i := hnd.getElem_inj_iff.mp (hjv.trans hib.symm)
      exact hij heq.symm

/-- `commandR`'s emitted line depends only on the lot store. -/
theorem commandR_fst_congr (st st2 : Registry) (args : String) (pt : Bool)
    (h : st2.lotMap = st.lotMap) :
    (commandR st2 args pt).1 = (commandR st args pt).1 := by
  unfold commandR findVaccineByBatch
  rw [h]
  by_cases ha : args = ""
  · rw [if_pos ha, if_pos ha]
  · rw [if_neg ha, if_neg ha]
    cases hc : assocFind st.lotMap args with
    | none => rfl
    | some lot =>
      by_cases h0 : lot.dosesUsed = 0 <;> simp [h0]

/-- `commandD` never touches the lot store, the name index, the global lot
list or the lot counter. -/
theorem commandD_frame (st : Registry) (userName : String) (rawDate : Option Date)
    (lotF : Option String) (cur : Date) (pt : Bool) :
    (commandD st userName rawDate lotF cur pt).2.lotMap = st.lotMap ∧
    (commandD st userName rawDate lotF cur pt).2.groups = st.groups ∧
    (commandD st userName rawDate lotF cur pt).2.batchList = st.batchList ∧
    (commandD st userName rawDate lotF cur pt).2.vaccineCount = st.vaccineCount := by
  unfold commandD commandDValidated
  cases rawDate <;>
    · repeat' split
      all_goals simp

/-- Example dates and lots for the concrete witnesses. -/
def exClock : Date := ⟨1, 1, 2025⟩

def exLotA1 : VaccineLot := ⟨"A1", "VaxX", ⟨1, 6, 2025⟩, 10, 0, false⟩

def exLotB2 : VaccineLot := ⟨"B2", "VaxX", ⟨1, 8, 2025⟩, 5, 0, false⟩

/-- A registry with one name group holding two lots in unsorted internal
order (the later-expiring `B2` first). -/
def exAllocSt : Registry :=
  ⟨[("B2", exLotB2), ("A1", exLotA1)], [("VaxX", ["B2", "A1"])],
   ["B2", "A1"], 2, [], []⟩

/-- A registry with one user inoculated today with a lot of `VaxX`. -/
def exGuardInoc : Inoculation := ⟨"Alice", "A1", ⟨1, 1, 2025⟩⟩

def exGuardSt : Registry :=
  ⟨[("A1", exLotA1)], [("VaxX", ["A1"])], ["A1"], 1,
   [("Alice", [exGuardInoc])], [exGuardInoc]⟩

/-- A registry for the Retire witness: one unused lot. -/
def exRetireSt : Registry :=
  ⟨[("A1", exLotA1)], [("VaxX", ["A1"])], ["A1"], 1, [], []⟩

/-- Inoculations for the Revoke order counterexample (administration order
`exInoc0 … exInoc3`, global list newest first). -/
def exInoc0 : Inoculation := ⟨"Bob", "A0", ⟨1, 1, 2025⟩⟩

def exInoc1 : Inoculation := ⟨"Bob", "B1", ⟨2, 1, 2025⟩⟩

def exInoc2 : Inoculation := ⟨"Bob", "C2", ⟨3, 1, 2025⟩⟩

def exInoc3 : Inoculation := ⟨"Bob", "D3", ⟨4, 1, 2025⟩⟩

def exLotB1 : VaccineLot := ⟨"B1", "VaxY", ⟨1, 6, 2025⟩, 10, 4, false⟩

def exRevSt : Registry :=
  ⟨[("B1", exLotB1)], [("VaxY", ["B1"])], ["B1"], 1,
   [("Bob", [exInoc0, exInoc1, exInoc2, exInoc3])],
   [exInoc3, exInoc2, exInoc1, exInoc0]⟩

/-- C1: The allocation used by Administer selects, among the lots of the
vaccine name's group that are not frozen, have `dosesUsed < doses` and have
a validation date at or after the clock date, the unique lot with the
earliest validation date, ties broken by lexicographically (`strcmp`)
smallest batch id (uniqueness under distinct batch ids in the group); when
no lot of the group qualifies, Administer (with the already-vaccinated
guard not firing) reports no stock and leaves the registry unchanged. -/
theorem administer_allocation_policy (st : Registry) (userName vaccineName : String)
    (d : Date) (pt : Bool)
    (hguard : isAlreadyVaccinated st userName vaccineName d = false)
    (hnd : ((groupLots st vaccineName).map VaccineLot.lot).Nodup) :
    match findOldestValidLot st vaccineName d with
    | some l =>
        l ∈ groupLots st vaccineName ∧ isLotValidAndAvailable l d = true ∧
        (∀ l2 ∈ groupLots st vaccineName, isLotValidAndAvailable l2 d = true →
          l2 = l ∨ compareDates l.validation l2.validation < 0 ∨
            (l.validation = l2.validation ∧ strcmpS l.lot l2.lot < 0)) ∧
        (processVaccineApplication st userName vaccineName d pt).1 = [l.lot]
    | none =>
        (∀ l2 ∈ groupLots st vaccineName, isLotValidAndAvailable l2 d = false) ∧
        processVaccineApplication st userName vaccineName d pt =
          ([msgNoStock pt], st) := by
  have hg2 : ¬ (isAlreadyVaccinated st userName vaccineName d = true) := by
    rw [hguard]
    simp
  cases hga : assocFind st.groups vaccineName with
  | none =>
    have hfol : findOldestValidLot st vaccineName d = none := by
      unfold findOldestValidLot
      rw [hga]
    have hgl : groupLots st vaccineName = [] := by
      unfold groupLots
      rw [hga]
      rfl
    rw [hfol]
    refine ⟨?_, ?_⟩
    · intro l2 hl2
      rw [hgl] at hl2
      simp at hl2
    · unfold processVaccineApplication
      rw [if_neg hg2, hfol]
  | some ids =>
    have hgl : groupLots st vaccineName = derefLots st ids := by
      unfold groupLots
      rw [hga]
      rfl
    by_cases hlen : ids.length = 0
    · have hids : ids = [] := List.length_eq_zero.mp hlen
      have hfol : findOldestValidLot st vaccineName d = none := by
        unfold findOldestValidLot
        rw [hga]
        simp only [if_pos hlen]
      rw [hfol]
      refine ⟨?_, ?_⟩
      · intro l2 hl2
        rw [hgl, hids] at hl2
        simp [derefLots] at hl2
      · unfold processVaccineApplication
        rw [if_neg hg2, hfol]
    · have hfol : findOldestValidLot st vaccineName d =
          findOldestValidLotFromList (derefLots st ids) d := by
        unfold findOldestValidLot
        rw [hga]
        simp [hlen]
      rw [hfol]
      have hspec := findOldestValidLotFromList_spec (derefLots st ids) d
      cases hres : findOldestValidLotFromList (derefLots st ids) d with
      | none =>
        rw [hres] at hspec
        refine ⟨?_, ?_⟩
        · intro l2 hl2
          rw [hgl] at hl2
          exact hspec l2 hl2
        · unfold processVaccineApplication
          rw [if_neg hg2, hfol, hres]
      | some r =>
        rw [hres] at hspec
        obtain ⟨helig, hmem, hmin⟩ := hspec
        rw [hgl] at hnd
        refine ⟨by rw [hgl]; exact hmem, helig, ?_, ?_⟩
        · intro l2 hl2 hel2
          rw [hgl] at hl2
          have hle := hmin l2 hl2 hel2
          by_cases heq : l2 = r
          · exact Or.inl heq
          · rcases Nat.lt_or_ge 0 1 with _ | _
            all_goals
            · have hlt : compareVaccines r l2 < 0 := by
                rcases lt_or_eq_of_le hle with h | h
                · exact h
                · obtain ⟨hv, hlot⟩ := compareVaccines_eq_zero r l2 h
                  have := List.inj_on_of_nodup_map hnd hmem hl2 hlot
                  exact absurd this.symm heq
              exact Or.inr ((compareVaccines_lt_iff r l2).mp hlt)
        · unfold processVaccineApplication
          rw [if_neg hg2, hfol, hres]
          rfl

theorem administer_allocation_policy_witness :
    isAlreadyVaccinated exAllocSt "Alice" "VaxX" exClock = false ∧
    ((groupLots exAllocSt "VaxX").map VaccineLot.lot).Nodup ∧
    match findOldestValidLot exAllocSt "VaxX" exClock with
    | some l =>
        l ∈ groupLots exAllocSt "VaxX" ∧ isLotValidAndAvailable l exClock = true ∧
        (∀ l2 ∈ groupLots exAllocSt "VaxX", isLotValidAndAvailable l2 exClock = true →
          l2 = l ∨ compareDates l.validation l2.validation < 0 ∨
            (l.validation = l2.validation ∧ strcmpS l.lot l2.lot < 0)) ∧
        (processVaccineApplication exAllocSt "Alice" "VaxX" exClock false).1 = [l.lot]
    | none =>
        (∀ l2 ∈ groupLots exAllocSt "VaxX", isLotValidAndAvailable l2 exClock = false) ∧
        processVaccineApplication exAllocSt "Alice" "VaxX" exClock false =
          ([msgNoStock false], exAllocSt) :=
  ⟨by decide, by decide,
    administer_allocation_policy exAllocSt "Alice" "VaxX" exClock false
      (by decide) (by decide)⟩

/-- C4: When the user already has an inoculation dated exactly the clock
date whose lot belongs to the requested vaccine name's group (the guard is
keyed on the name group, not on one batch id), Administer reports
already-vaccinated and leaves the registry — in particular every lot's
`dosesUsed` — unchanged. -/
theorem administer_already_vaccinated_guard (st : Registry)
    (userName vaccineName : String) (d : Date) (pt : Bool)
    (h : ∃ arr, assocFind st.users userName = some arr ∧
         ∃ ids, assocFind st.groups vaccineName = some ids ∧
         ∃ inoc ∈ arr, inoc.date = d ∧ inoc.lot ∈ ids) :
    processVaccineApplication st userName vaccineName d pt =
      ([msgAlreadyVaccinated pt], st) ∧
    ∀ b, findVaccineByBatch
      (processVaccineApplication st userName vaccineName d pt).2 b =
      findVaccineByBatch st b := by
  obtain ⟨arr, harr, ids, hids, inoc, hmem, hdate, hlot⟩ := h
  have hguard : isAlreadyVaccinated st userName vaccineName d = true := by
    subst hdate
    unfold isAlreadyVaccinated
    rw [harr, hids, List.any_eq_true]
    refine ⟨inoc, hmem, ?_⟩
    unfold inoculationMatches
    simp only [Bool.and_eq_true, decide_eq_true_eq, List.any_eq_true]
    exact ⟨⟨⟨trivial, trivial⟩, trivial⟩, inoc.lot, hlot, rfl⟩
  have hres : processVaccineApplication st userName vaccineName d pt =
      ([msgAlreadyVaccinated pt], st) := by
    unfold processVaccineApplication
    rw [if_pos hguard]
  exact ⟨hres, fun b => by rw [hres]⟩

theorem administer_already_vaccinated_guard_witness :
    processVaccineApplication exGuardSt "Alice" "VaxX" exClock false =
      ([msgAlreadyVaccinated false], exGuardSt) ∧
    ∀ b, findVaccineByBatch
      (processVaccineApplication exGuardSt "Alice" "VaxX" exClock false).2 b =
      findVaccineByBatch exGuardSt b :=
  administer_already_vaccinated_guard exGuardSt "Alice" "VaxX" exClock false
    ⟨[exGuardInoc], by decide, ["A1"], by decide, exGuardInoc, by decide, by decide,
      by decide⟩

/-- C3: Retire reports the batch's `dosesUsed` at call time; a batch with
`dosesUsed = 0` is purged (no longer found by id, gone from the global
listing and from its name group), a batch with `dosesUsed ≠ 0` is frozen in
place (`isRemoved` set and `doses` clamped to `dosesUsed`, so zero doses
remain available; it stays in the global list and the name index, and the
allocation scan never selects a removed lot); an absent id reports
`no such batch` and changes nothing. -/
theorem commandR_retire_spec (st : Registry) (args : String) (pt : Bool)
    (hargs : args ≠ "")
    (hkeys : (st.lotMap.map Prod.fst).Nodup)
    (hbl : st.batchList.Nodup)
    (hgnd : ∀ nm ids, assocFind st.groups nm = some ids → ids.Nodup) :
    match findVaccineByBatch st args with
    | none => commandR st args pt = ([msgNoSuchBatch pt args], st)
    | some lot =>
        (commandR st args pt).1 = [toString lot.dosesUsed] ∧
        (lot.dosesUsed = 0 →
          findVaccineByBatch (commandR st args pt).2 args = none ∧
          args ∉ (commandR st args pt).2.batchList ∧
          (∀ ids2, assocFind (commandR st args pt).2.groups lot.name = some ids2 →
            args ∉ ids2)) ∧
        (lot.dosesUsed ≠ 0 →
          findVaccineByBatch (commandR st args pt).2 args =
            some { lot with isRemoved := true, doses := lot.dosesUsed } ∧
          (({ lot with isRemoved := true, doses := lot.dosesUsed }).doses -
            ({ lot with isRemoved := true, doses := lot.dosesUsed }).dosesUsed : Int) = 0 ∧
          (commandR st args pt).2.batchList = st.batchList ∧
          (commandR st args pt).2.groups = st.groups ∧
          (∀ lots d r, findOldestValidLotFromList lots d = some r →
            r.isRemoved = false)) := by
  cases hfind : findVaccineByBatch st args with
  | none =>
    unfold commandR
    rw [if_neg hargs, hfind]
  | some lot =>
    by_cases h0 : lot.dosesUsed = 0
    · have hcr : commandR st args pt = ([toString lot.dosesUsed],
          { st with
            lotMap := assocRemove st.lotMap args,
            groups := assocModify st.groups lot.name
              (fun ids => removeVaccineFromNameIndex ids args),
            batchList := removeVaccineFromList st.batchList args }) := by
        unfold commandR
        rw [if_neg hargs, hfind]
        simp [h0]
      rw [hcr]
      refine ⟨rfl, ?_, fun hne => absurd h0 hne⟩
      intro _
      refine ⟨?_, ?_, ?_⟩
      · unfold findVaccineByBatch
        exact assocFind_assocRemove_self st.lotMap args hkeys
      · exact not_mem_removeVaccineFromList st.batchList args hbl
      · intro ids2 hids2
        rw [show ({ st with
            lotMap := assocRemove st.lotMap args,
            groups := assocModify st.groups lot.name
              (fun ids => removeVaccineFromNameIndex ids args),
            batchList := removeVaccineFromList st.batchList args } : Registry).groups =
          assocModify st.groups lot.name
            (fun ids => removeVaccineFromNameIndex ids args) from rfl] at hids2
        rw [assocFind_assocModify_self] at hids2
        cases hg : assocFind st.groups lot.name with
        | none => rw [hg] at hids2; cases hids2
        | some ids =>
          rw [hg] at hids2
          have hi2 : ids2 = removeVaccineFromNameIndex ids args :=
            (Option.some.inj hids2).symm
          rw [hi2]
          exact swapLast_not_mem ids args (hgnd lot.name ids hg)
    · have hcr : commandR st args pt = ([toString lot.dosesUsed],
          { st with
            lotMap := assocUpdate st.lotMap args
              { lot with isRemoved := true, doses := lot.dosesUsed } }) := by
        unfold commandR
        rw [if_neg hargs, hfind]
        simp [h0]
      rw [hcr]
      refine ⟨rfl, fun he => absurd he h0, ?_⟩
      intro _
      refine ⟨?_, by simp, rfl, rfl, ?_⟩
      · unfold findVaccineByBatch
        rw [show ({ st with
            lotMap := assocUpdate st.lotMap args
              { lot with isRemoved := true, doses := lot.dosesUsed } } : Registry).lotMap =
          assocUpdate st.lotMap args
            { lot with isRemoved := true, doses := lot.dosesUsed } from rfl]
        rw [assocFind_assocUpdate_self]
        unfold findVaccineByBatch at hfind
        rw [hfind]
        rfl
      · intro lots d r hr
        exact findOldestValidLotFromList_not_removed lots d r hr

theorem exRetireSt_groups_nodup :
    ∀ nm ids, assocFind exRetireSt.groups nm = some ids → ids.Nodup := by
  intro nm ids h
  simp only [exRetireSt, assocFind] at h
  split_ifs at h with hv
  all_goals cases h
  all_goals decide

theorem commandR_retire_spec_witness :
    "A1" ≠ "" ∧ (exRetireSt.lotMap.map Prod.fst).Nodup ∧ exRetireSt.batchList.Nodup ∧
    (∀ nm ids, assocFind exRetireSt.groups nm = some ids → ids.Nodup) ∧
    match findVaccineByBatch exRetireSt "A1" with
    | none => commandR exRetireSt "A1" false = ([msgNoSuchBatch false "A1"], exRetireSt)
    | some lot =>
        (commandR exRetireSt "A1" false).1 = [toString lot.dosesUsed] ∧
        (lot.dosesUsed = 0 →
          findVaccineByBatch (commandR exRetireSt "A1" false).2 "A1" = none ∧
          "A1" ∉ (commandR exRetireSt "A1" false).2.batchList ∧
          (∀ ids2, assocFind (commandR exRetireSt "A1" false).2.groups lot.name =
              some ids2 → "A1" ∉ ids2)) ∧
        (lot.dosesUsed ≠ 0 →
          findVaccineByBatch (commandR exRetireSt "A1" false).2 "A1" =
            some { lot with isRemoved := true, doses := lot.dosesUsed } ∧
          (({ lot with isRemoved := true, doses := lot.dosesUsed }).doses -
            ({ lot with isRemoved := true, doses := lot.dosesUsed }).dosesUsed : Int) = 0 ∧
          (commandR exRetireSt "A1" false).2.batchList = exRetireSt.batchList ∧
          (commandR exRetireSt "A1" false).2.groups = exRetireSt.groups ∧
          (∀ lots d r, findOldestValidLotFromList lots d = some r →
            r.isRemoved = false)) :=
  ⟨by decide, by decide, by decide, exRetireSt_groups_nodup,
    commandR_retire_spec exRetireSt "A1" false (by decide) (by decide) (by decide)
      exRetireSt_groups_nodup⟩

/-- C9: Revoke (`commandD`) leaves every batch unchanged — the lot store,
the name index, the global lot list and the lot counter of the resulting
registry are those of the input — so a later Retire (`commandR`) on any id
emits the same line (the same `dosesUsed`, hence the same purge-or-freeze
decision) after a Revoke as it would have before it. -/
theorem commandD_leaves_batches_unchanged (st : Registry) (userName : String)
    (rawDate : Option Date) (lotF : Option String) (cur : Date) (pt : Bool) :
    ((commandD st userName rawDate lotF cur pt).2.lotMap = st.lotMap ∧
     (commandD st userName rawDate lotF cur pt).2.groups = st.groups ∧
     (commandD st userName rawDate lotF cur pt).2.batchList = st.batchList ∧
     (commandD st userName rawDate lotF cur pt).2.vaccineCount = st.vaccineCount) ∧
    ∀ args2, (commandR (commandD st userName rawDate lotF cur pt).2 args2 pt).1 =
      (commandR st args2 pt).1 := by
  refine ⟨commandD_frame st userName rawDate lotF cur pt, ?_⟩
  intro args2
  exact commandR_fst_congr st _ args2 pt
    (commandD_frame st userName rawDate lotF cur pt).1

/-- C2 (failing input for the order-preservation requirement): a user with
four inoculations, a Revoke that matches only the second one.  The C
removal (`removeInoculationFromUser`) overwrites the removed slot with the
last entry, so the remaining sequence comes out `[first, fourth, third]` —
as `ListInoculations` for that user then prints — instead of the
administration order `[first, third, fourth]`; the result is not a
subsequence of the original administration order. -/
theorem commandD_swap_with_last_disturbs_order :
    (commandD exRevSt "Bob" (some ⟨2, 1, 2025⟩) (some "B1") ⟨10, 1, 2025⟩ false).1 =
      [toString (1 : Int)] ∧
    assocFind (commandD exRevSt "Bob" (some ⟨2, 1, 2025⟩) (some "B1")
      ⟨10, 1, 2025⟩ false).2.users "Bob" = some [exInoc0, exInoc3, exInoc2] ∧
    listInoculationsByUser (commandD exRevSt "Bob" (some ⟨2, 1, 2025⟩) (some "B1")
      ⟨10, 1, 2025⟩ false).2 "Bob" false =
      [printInoculation exInoc0, printInoculation exInoc3, printInoculation exInoc2] ∧
    [exInoc0, exInoc3, exInoc2] ≠ [exInoc0, exInoc2, exInoc3] := by
  refine ⟨rfl, by decide, rfl, by decide⟩

/-- The one-lot registry used by the register-capacity example. -/
def exLotAA : VaccineLot := ⟨"AA", "vax", ⟨1, 6, 2025⟩, 5, 0, false⟩

def exC6St : Registry :=
  ⟨[("AA", exLotAA)], [("vax", ["AA"])], ["AA"], 1, [], []⟩

/-- C6 (counterexample): with well-formed arguments, the id already present
and the cap reached, Register reports `too many vaccines` (the capacity
check), not `duplicate batch number`: the capacity check comes first in
`addNewVaccineToSystem`. -/
theorem register_duplicate_at_capacity_counterexample :
    isValidBatch "AA" = true ∧ isValidName "vax" = true ∧
    isValidDate ⟨1, 6, 2025⟩ exClock = true ∧ (0 : Int) < 5 ∧
    (findVaccineByBatch exC6St "AA").isSome = true ∧
    (1 : Int) ≤ exC6St.vaccineCount ∧
    registerParsed exC6St "AA" "vax" ⟨1, 6, 2025⟩ 5 exClock 1 false =
      ([msgTooManyVaccines false], exC6St) ∧
    msgTooManyVaccines false ≠ msgDuplicateBatch false := by
  decide

/-- C6 (amended): for well-formed arguments with the id already present and
the registered count at or over the cap, Register reports the capacity
error and leaves the registry unchanged: the capacity check precedes the
duplicate-id check. -/
theorem register_capacity_check_precedes_duplicate (st : Registry)
    (batch name : String) (validation : Date) (doses : Int) (cur : Date)
    (maxV : Int) (pt : Bool)
    (h1 : isValidBatch batch = true) (h2 : isValidName name = true)
    (h3 : isValidDate validation cur = true) (h4 : 0 < doses)
    (h5 : (findVaccineByBatch st batch).isSome = true)
    (h6 : maxV ≤ st.vaccineCount) :
    registerParsed st batch name validation doses cur maxV pt =
      ([msgTooManyVaccines pt], st) := by
  unfold registerParsed
  rw [if_neg (by simp [h1]), if_neg (by simp [h2]), if_neg (by simp [h3]),
    if_neg (by omega)]
  unfold addNewVaccineToSystem
  rw [if_pos (by omega)]

theorem register_capacity_check_precedes_duplicate_witness :
    isValidBatch "AA" = true ∧ isValidName "vax" = true ∧
    isValidDate ⟨1, 6, 2025⟩ exClock = true ∧ (0 : Int) < 5 ∧
    (findVaccineByBatch exC6St "AA").isSome = true ∧ (1 : Int) ≤ exC6St.vaccineCount ∧
    registerParsed exC6St "AA" "vax" ⟨1, 6, 2025⟩ 5 exClock 1 false =
      ([msgTooManyVaccines false], exC6St) :=
  ⟨by decide, by decide, by decide, by decide, by decide, by decide,
    register_capacity_check_precedes_duplicate exC6St "AA" "vax" ⟨1, 6, 2025⟩ 5
      exClock 1 false (by decide) (by decide) (by decide) (by decide) (by decide)
      (by decide)⟩

/-- C7 (counterexample): with a nonexistent user and an invalid date
filter, Revoke reports `invalid date`, not `no such user`: the date filter
is validated during argument parsing, before the user check. -/
theorem revoke_invalid_date_counterexample :
    assocFind emptyRegistry.users "X" = none ∧
    isDateFormatValid ⟨31, 2, 2025⟩ = false ∧
    commandD emptyRegistry "X" (some ⟨31, 2, 2025⟩) none ⟨1, 6, 2025⟩ false =
      ([msgInvalidDate false], emptyRegistry) ∧
    [msgInvalidDate false] ≠ [msgNoSuchUser false "X"] := by
  decide

/-- C7 (amended): whenever the supplied date filter is invalid (not
calendar-valid or after the clock date), Revoke reports `invalid date` and
leaves the registry unchanged, regardless of whether the user exists: the
date filter is validated during parsing, before the user-existence check
and the batch-filter check. -/
theorem commandD_date_validated_before_user (st : Registry) (userName : String)
    (dt : Date) (lotF : Option String) (cur : Date) (pt : Bool)
    (h : ¬ (isDateFormatValid dt = true ∧ isDateFuture dt cur = false)) :
    commandD st userName (some dt) lotF cur pt = ([msgInvalidDate pt], st) := by
  have hc : (¬ (isDateFormatValid dt = true)) ∨ (isDateFuture dt cur = true) := by
    by_cases hv : isDateFormatValid dt = true
    · by_cases hf : isDateFuture dt cur = true
      · exact Or.inr hf
      · exact absurd ⟨hv, by simpa using hf⟩ h
    · exact Or.inl hv
  show (if (¬ isDateFormatValid dt = true ∨ isDateFuture dt cur = true) then
      ([msgInvalidDate pt], st)
    else commandDValidated st userName (some dt) lotF pt) = ([msgInvalidDate pt], st)
  rw [if_pos hc]

theorem commandD_date_validated_before_user_witness :
    ¬ (isDateFormatValid ⟨31, 2, 2025⟩ = true ∧
       isDateFuture ⟨31, 2, 2025⟩ ⟨1, 6, 2025⟩ = false) ∧
    commandD emptyRegistry "X" (some ⟨31, 2, 2025⟩) none ⟨1, 6, 2025⟩ false =
      ([msgInvalidDate false], emptyRegistry) :=
  ⟨by decide,
    commandD_date_validated_before_user emptyRegistry "X" ⟨31, 2, 2025⟩ none
      ⟨1, 6, 2025⟩ false (by decide)⟩

/-- C8: For a present, non-empty name group, `ListBatchesByName` builds and
sorts a copy of the group but prints the original: the emitted lines are
the group's lots in the group's internal order.  On the example registry
whose group holds the later-expiring lot first, that printed order is not
the (validation date, id) order used by `ListAllBatches` (the first printed
lot compares strictly after the second). -/
theorem listVaccinesByName_prints_unsorted (st : Registry) (vaccineName : String)
    (pt : Bool) (ids : List String)
    (hg : assocFind st.groups vaccineName = some ids) (hne : ids.length ≠ 0) :
    listVaccinesByName st vaccineName pt = (derefLots st ids).map printVaccine ∧
    (listVaccinesByName exAllocSt "VaxX" false =
        [printVaccine exLotB2, printVaccine exLotA1] ∧
      derefLots exAllocSt ["B2", "A1"] = [exLotB2, exLotA1] ∧
      ¬ compareVaccines exLotB2 exLotA1 ≤ 0) := by
  refine ⟨?_, rfl, by decide, by decide⟩
  unfold listVaccinesByName
  rw [hg]
  simp [hne]

theorem listVaccinesByName_prints_unsorted_witness :
    assocFind exAllocSt.groups "VaxX" = some ["B2", "A1"] ∧
    (["B2", "A1"] : List String).length ≠ 0 ∧
    listVaccinesByName exAllocSt "VaxX" false =
      (derefLots exAllocSt ["B2", "A1"]).map printVaccine :=
  ⟨by decide, by decide,
    (listVaccinesByName_prints_unsorted exAllocSt "VaxX" false ["B2", "A1"]
      (by decide) (by decide)).1⟩

/-- C10: When the Register argument string is syntactically incomplete —
only one token (no validation-date token), only two tokens (no dose-count
token), or nothing after the third token (no vaccine name) — `commandC`
prints the out-of-memory message (`No memory` / `sem memória`) rather than
any validation error, and the registry is unchanged. -/
theorem commandC_incomplete_args_no_memory (st : Registry) (args : String)
    (cur : Date) (maxV : Int) (pt : Bool)
    (h : ∃ t1 r1, strtokSp args.data = some (t1, r1) ∧
      (strtokSp r1 = none ∨
       ∃ t2 r2, strtokSp r1 = some (t2, r2) ∧
        (strtokSp r2 = none ∨
         ∃ t3 r3, strtokSp r2 = some (t3, r3) ∧ r3 = []))) :
    commandC st args cur maxV pt = ([msgNoMemory pt], st) := by
  obtain ⟨t1, r1, h1, hrest⟩ := h
  have hparse : parseArgumentsC args.data = none := by
    unfold parseArgumentsC
    simp only [h1]
    rcases hrest with h2 | ⟨t2, r2, h2, hrest2⟩
    · simp only [h2]
    · simp only [h2]
      cases hpv : parseValidationDate t2 with
      | none => simp only [hpv]
      | some v =>
        simp only [hpv]
        rcases hrest2 with h3 | ⟨t3, r3, h3, hr3⟩
        · simp only [h3]
        · simp [h3, hr3]
  unfold commandC
  rw [hparse]

theorem commandC_incomplete_args_no_memory_witness :
    (∃ t1 r1, strtokSp ("AB" : String).data = some (t1, r1) ∧
      (strtokSp r1 = none ∨
       ∃ t2 r2, strtokSp r1 = some (t2, r2) ∧
        (strtokSp r2 = none ∨
         ∃ t3 r3, strtokSp r2 = some (t3, r3) ∧ r3 = []))) ∧
    commandC emptyRegistry "AB" exClock 1000 false =
      ([msgNoMemory false], emptyRegistry) :=
  ⟨⟨['A', 'B'], [], by decide, Or.inl (by decide)⟩,
    commandC_incomplete_args_no_memory emptyRegistry "AB" exClock 1000 false
      ⟨['A', 'B'], [], by decide, Or.inl (by decide)⟩⟩
